import Mathlib

/-!  Verification development for the FootLens injury-analytics dashboard
(`Summative.py`).  The file shallowly embeds the data model, the
`load_data` enrichment pipeline and the dashboard view projections
(filtering, ranking, frequency grid, leaderboard) as executable Lean
definitions, and proves theorems checking the natural-language
specification against them.

Numeric cells are modelled exactly, as rational numbers: every value the
program manipulates is produced by parsing a decimal literal, so it is a
decimal rational and is represented exactly.  Missing values (`NaN`) are
modelled by an explicit `null` constructor. -/

/-!  ### Exact rational arithmetic, kernel-reducible

The library arithmetic on `ℚ` (`Rat.add` and friends) is `irreducible`,
so concrete evaluation by `decide` gets stuck on it.  The pipeline is
therefore written against the following equivalent operations, built from
the reducible smart constructors `mkRat` / `Rat.divInt`; the bridge
lemmas below let symbolic proofs switch to the library operations. -/

/-- Rational addition via the normalizing constructor. -/
def qAdd (a b : ℚ) : ℚ := mkRat (a.num * b.den + b.num * a.den) (a.den * b.den)

/-- Rational subtraction via the normalizing constructor. -/
def qSub (a b : ℚ) : ℚ := mkRat (a.num * b.den - b.num * a.den) (a.den * b.den)

/-- Rational division via the normalizing constructor. -/
def qDiv (a b : ℚ) : ℚ := Rat.divInt (a.num * b.den) (a.den * b.num)

/-- Rational negation, componentwise. -/
def qNeg (a : ℚ) : ℚ :=
  ⟨-a.num, a.den, a.den_nz, by rw [Int.natAbs_neg]; exact a.reduced⟩

/-- Sum of a list of rationals, with the reducible addition. -/
def qSum (l : List ℚ) : ℚ := l.foldr qAdd 0

theorem qAdd_eq (a b : ℚ) : qAdd a b = a + b := by
  have ha : (a.den : ℚ) ≠ 0 := Nat.cast_ne_zero.mpr a.den_nz
  have hb : (b.den : ℚ) ≠ 0 := Nat.cast_ne_zero.mpr b.den_nz
  unfold qAdd
  rw [Rat.mkRat_eq_divInt, Rat.divInt_eq_div]
  conv_rhs => rw [← Rat.num_div_den a, ← Rat.num_div_den b]
  push_cast
  field_simp

theorem qSub_eq (a b : ℚ) : qSub a b = a - b := by
  have ha : (a.den : ℚ) ≠ 0 := Nat.cast_ne_zero.mpr a.den_nz
  have hb : (b.den : ℚ) ≠ 0 := Nat.cast_ne_zero.mpr b.den_nz
  unfold qSub
  rw [Rat.mkRat_eq_divInt, Rat.divInt_eq_div]
  conv_rhs => rw [← Rat.num_div_den a, ← Rat.num_div_den b]
  push_cast
  field_simp
  ring

theorem qNeg_eq (a : ℚ) : qNeg a = -a := by
  refine Rat.ext ?_ ?_
  · rw [Rat.num_neg_eq_neg_num]; rfl
  · rw [Rat.den_neg_eq_den]; rfl

theorem qDiv_eq (a b : ℚ) : qDiv a b = a / b := by
  rcases eq_or_ne b 0 with rfl | hb0
  · simp [qDiv, Rat.divInt_eq_div]
  · have ha : (a.den : ℚ) ≠ 0 := Nat.cast_ne_zero.mpr a.den_nz
    have hbd : (b.den : ℚ) ≠ 0 := Nat.cast_ne_zero.mpr b.den_nz
    have hbn : (b.num : ℚ) ≠ 0 := by
      simpa [Rat.num_eq_zero] using hb0
    unfold qDiv
    rw [Rat.divInt_eq_div]
    conv_rhs => rw [← Rat.num_div_den a, ← Rat.num_div_den b]
    push_cast
    field_simp

theorem qSum_eq (l : List ℚ) : qSum l = l.sum := by
  induction l with
  | nil => rfl
  | cons x xs ih => simp [qSum, List.foldr, qAdd_eq] at *; rw [ih]

/-!  ### The cell-value data model

A raw table cell is a missing value, a number, a string, or (after the
date-conversion step) a calendar date.  `pandas` represents missing
values as `NaN`; `Value.null` models them. -/

/-- Model of one cell of the data table. -/
inductive Value where
  | null : Value
  | num (q : ℚ) : Value
  | str (s : List Char) : Value
  | date (y m d : ℕ) : Value
deriving DecidableEq

/-!  ### Model of the Python float literal parser

`clean_numeric` calls Python's `float()` on the cleaned string.  The
parser below models the finite-float literal grammar: optional sign,
digits with an optional decimal point, and an optional decimal exponent.
The special spellings `inf`/`nan` (which do not denote finite values)
and digit-group underscores are outside the model; every string the
program's claims touch is covered by the grammar. -/

/-- Numeric value of a decimal digit character. -/
def digitVal (c : Char) : ℕ := c.toNat - 48

/-- Value of a most-significant-first digit string. -/
def valFold (l : List Char) : ℕ := l.foldl (fun a c => 10 * a + digitVal c) 0

/-- Value of mantissa digits `m`, scale `s` (fraction digits) and decimal
exponent `e`: the rational `m / 10 ^ s * 10 ^ e`. -/
def decScale (m : ℕ) (s : ℕ) (e : ℤ) : ℚ :=
  match e with
  | Int.ofNat p => Rat.divInt (m * 10 ^ p) ((10 : ℤ) ^ s)
  | Int.negSucc p => Rat.divInt m ((10 : ℤ) ^ (s + p + 1))

/-- Parses the exponent part after an `e`/`E` marker: optional sign and a
nonempty digit run. -/
def parseExp (cs : List Char) : Option ℤ :=
  match cs with
  | '+' :: r => if r ≠ [] ∧ r.all Char.isDigit then some (valFold r) else none
  | '-' :: r => if r ≠ [] ∧ r.all Char.isDigit then some (-(valFold r : ℤ)) else none
  | r => if r ≠ [] ∧ r.all Char.isDigit then some (valFold r) else none

/-- Parses a mantissa `digits [. digits]` (at least one digit overall),
returning the digits' value and the number of fraction digits. -/
def parseMantissa (cs : List Char) : Option (ℕ × ℕ) :=
  let ip := cs.takeWhile Char.isDigit
  match cs.dropWhile Char.isDigit with
  | [] => if ip.isEmpty then none else some (valFold ip, 0)
  | '.' :: r =>
    if (ip.isEmpty ∧ r.isEmpty) ∨ ¬ r.all Char.isDigit then none
    else some (valFold (ip ++ r), r.length)
  | _ => none

/-- Tests for the exponent marker character. -/
def isExpChar (c : Char) : Bool := c == 'e' || c == 'E'

/-- Parses an unsigned float literal: mantissa plus optional exponent. -/
def parseUnsigned (cs : List Char) : Option ℚ :=
  match parseMantissa (cs.takeWhile (fun c => ! isExpChar c)) with
  | none => none
  | some (v, s) =>
    match cs.dropWhile (fun c => ! isExpChar c) with
    | [] => some (decScale v s 0)
    | _ :: r => (parseExp r).map (fun e => decScale v s e)

/-- Model of Python `float(s)` on an already-stripped string: optional
sign followed by an unsigned literal; `none` models `ValueError`. -/
def parsePyFloat (cs : List Char) : Option ℚ :=
  match cs with
  | [] => parseUnsigned []
  | c :: r =>
    if c = '+' then parseUnsigned r
    else if c = '-' then (parseUnsigned r).map qNeg
    else parseUnsigned (c :: r)

/-!  ### Model of the string-cleaning steps of `clean_numeric` -/

/-- Scans to the first `')'`, returning the remainder after it; fails at
a newline or the end, mirroring that `.` in `re.sub(r"\(.*?\)", ...)`
does not match a newline. -/
def findClose : List Char → Option (List Char)
  | [] => none
  | c :: r => if c = ')' then some r else if c = '\n' then none else findClose r

/-- Fuel-driven worker for `dropParen`. -/
def dropParenGo : ℕ → List Char → List Char
  | 0, cs => cs
  | _ + 1, [] => []
  | fuel + 1, c :: r =>
    if c = '(' then
      match findClose r with
      | some after => dropParenGo fuel after
      | none => c :: dropParenGo fuel r
    else c :: dropParenGo fuel r

/-- Model of `re.sub(r"\(.*?\)", "", s)`: removes each shortest
parenthesized run, keeping an unmatched `(`. -/
def dropParen (cs : List Char) : List Char := dropParenGo cs.length cs

/-- Model of Python `str.strip()`: drops whitespace at both ends. -/
def stripChars (cs : List Char) : List Char :=
  ((cs.dropWhile Char.isWhitespace).reverse.dropWhile Char.isWhitespace).reverse

/-- The literal sentinel list of `clean_numeric`:
`["", "N.A.", "N.A", "NA", "n.a.", "-", "None"]`. -/
def sentinels : List (List Char) :=
  [[], "N.A.".toList, "N.A".toList, "NA".toList, "n.a.".toList, "-".toList,
    "None".toList]

/-- Body of `clean_numeric` after `str(val).strip()`: the sentinel test,
then parenthesis removal, comma removal and re-stripping, then the float
parse with failure mapped to null. -/
def cleanTrimmed (t : List Char) : Value :=
  if t ∈ sentinels then Value.null
  else
    match parsePyFloat (stripChars ((dropParen t).filter (fun c => c ≠ ','))) with
    | some q => Value.num q
    | none => Value.null

/-!  ### Model of `str(val)` for non-string cells

Python renders a finite float in decimal notation and guarantees that
`float(str(x)) == x`.  `renderNum` produces the plain decimal digit
string for a decimal rational (the only rationals a float can hold);
for a non-decimal rational, which never arises from a parsed float, it
falls back to the unparseable spelling `"nan"`. -/

/-- Divides out all factors `p` (fuel-driven), returning the exponent and
the remaining cofactor. -/
def factorOut (p : ℕ) : ℕ → ℕ → ℕ × ℕ
  | 0, n => (0, n)
  | fuel + 1, n =>
    if 2 ≤ p ∧ n ≠ 0 ∧ n % p = 0 then
      ((factorOut p fuel (n / p)).1 + 1, (factorOut p fuel (n / p)).2)
    else (0, n)

/-- Divides out all factors `p` of `n`. -/
def factorOutAll (p n : ℕ) : ℕ × ℕ := factorOut p n n

/-- Fuel-driven little-endian base-10 digits; with enough fuel it agrees
with `Nat.digits 10` (see `natDigitsRev_eq_digits`). -/
def natDigitsRev : ℕ → ℕ → List ℕ
  | 0, _ => []
  | fuel + 1, n => if n = 0 then [] else n % 10 :: natDigitsRev fuel (n / 10)

theorem natDigitsRev_eq_digits : ∀ (fuel n : ℕ), n ≤ fuel →
    natDigitsRev fuel n = Nat.digits 10 n := by
  intro fuel
  induction fuel with
  | zero =>
    intro n hn
    interval_cases n
    simp [natDigitsRev]
  | succ f ih =>
    intro n hn
    by_cases h0 : n = 0
    · subst h0; simp [natDigitsRev]
    · rw [natDigitsRev, if_neg h0, Nat.digits_def' (by norm_num) (Nat.pos_of_ne_zero h0),
        ih (n / 10) ?_]
      have : n / 10 < n := Nat.div_lt_self (Nat.pos_of_ne_zero h0) (by norm_num)
      omega

/-- Decimal digit characters of `m`, most significant first (empty for
zero). -/
def digitChars (m : ℕ) : List Char := ((natDigitsRev m m).map Nat.digitChar).reverse

theorem digitChars_eq (m : ℕ) :
    digitChars m = ((Nat.digits 10 m).map Nat.digitChar).reverse := by
  rw [digitChars, natDigitsRev_eq_digits m m le_rfl]

/-- Digit string of `m`, left-padded with zeros to at least `k + 1`
digits. -/
def renderFull (m k : ℕ) : List Char :=
  List.replicate (k + 1 - (digitChars m).length) '0' ++ digitChars m

/-- Decimal rendering of the nonnegative value `m / 10 ^ k`, always with
a decimal point, as Python `str` renders a float. -/
def renderBody (m k : ℕ) : List Char :=
  if k = 0 then renderFull m k ++ ['.', '0']
  else (renderFull m k).take ((renderFull m k).length - k) ++
    '.' :: (renderFull m k).drop ((renderFull m k).length - k)

/-- Number of fraction digits needed to render `q`: the larger of the
2-adic and 5-adic valuations of its denominator. -/
def renderScale (q : ℚ) : ℕ :=
  max (factorOutAll 2 q.den).1 (factorOutAll 5 (factorOutAll 2 q.den).2).1

/-- Numerator of `q` scaled to denominator `10 ^ renderScale q`. -/
def renderMant (q : ℚ) : ℤ := q.num * ((10 ^ renderScale q / q.den : ℕ) : ℤ)

/-- Model of Python `str` on a float value. -/
def renderNum (q : ℚ) : List Char :=
  if (factorOutAll 5 (factorOutAll 2 q.den).2).2 = 1 then
    if q.num < 0 then '-' :: renderBody (renderMant q).natAbs (renderScale q)
    else renderBody (renderMant q).natAbs (renderScale q)
  else "nan".toList

/-- Two-digit zero-padded rendering, for date components. -/
def pad2 (n : ℕ) : List Char := if n < 10 then '0' :: digitChars n else digitChars n

/-- Model of `str` on a pandas timestamp (`YYYY-MM-DD 00:00:00`). -/
def renderDate (y m d : ℕ) : List Char :=
  digitChars y ++ '-' :: (pad2 m ++ '-' :: (pad2 d ++ " 00:00:00".toList))

/-- Model of the helper `clean_numeric` of `load_data`: missing values
stay missing (`pd.isna`), any other value is rendered with `str`,
stripped, tested against the sentinel list, cleaned of parenthesized
runs and commas, and parsed as a float, with parse failure mapped to
null. -/
def clean_numeric (v : Value) : Value :=
  match v with
  | Value.null => Value.null
  | Value.num q => cleanTrimmed (stripChars (renderNum q))
  | Value.str s => cleanTrimmed (stripChars s)
  | Value.date y m d => cleanTrimmed (stripChars (renderDate y m d))

/-!  ### The table model

A data frame is a list of column headers plus row-major cells.  Columns
are addressed by name through the position of the first matching header,
as `pandas` label lookup does. -/

/-- Model of a pandas data frame. -/
structure Frame where
  headers : List (List Char)
  rows : List (List Value)
deriving DecidableEq

/-- Position of the first header equal to `n`. -/
def colIdx : List (List Char) → List Char → Option ℕ
  | [], _ => none
  | h :: t, n => if h = n then some 0 else (colIdx t n).map (· + 1)

/-- Cell of row `r` in the column named `n` (null when absent). -/
def rowGet (hs : List (List Char)) (r : List Value) (n : List Char) : Value :=
  match colIdx hs n with
  | some i => r.getD i Value.null
  | none => Value.null

/-- Tests for `n in df.columns`. -/
def hasCol (f : Frame) (n : List Char) : Bool := (colIdx f.headers n).isSome

/-- Model of `df[n] = <row-wise expression>`: overwrites the column in
place when present, otherwise appends it. -/
def setCol (f : Frame) (n : List Char) (g : List Value → Value) : Frame :=
  match colIdx f.headers n with
  | some i => ⟨f.headers, f.rows.map (fun r => r.set i (g r))⟩
  | none => ⟨f.headers ++ [n], f.rows.map (fun r => r ++ [g r])⟩

/-- Model of `df[n] = df[n].apply(g)`; a no-op when the column is
absent. -/
def mapCol (f : Frame) (n : List Char) (g : Value → Value) : Frame :=
  match colIdx f.headers n with
  | some i => ⟨f.headers, f.rows.map (fun r => r.set i (g (r.getD i Value.null)))⟩
  | none => f

/-- Every row has exactly one cell per header, as in a rectangular CSV. -/
def Aligned (f : Frame) : Prop := ∀ r ∈ f.rows, r.length = f.headers.length

instance (f : Frame) : Decidable (Aligned f) :=
  inferInstanceAs (Decidable (∀ r ∈ f.rows, r.length = f.headers.length))

/-- Cell of row `i` of frame `f` in the column named `n`. -/
def getIn (f : Frame) (i : ℕ) (n : List Char) : Value :=
  rowGet f.headers (f.rows.getD i []) n

/-!  ### Date parsing and calendar decomposition

Modelled from the spec: `pandas.to_datetime(col, errors="coerce")` is an
external black box ("basic date parsing"); it is modelled on its ISO
`YYYY-MM-DD` core, with every parse failure coerced to null, which is
the only behaviour the specification relies on. -/

/-- Parses an ISO `YYYY-MM-DD` date; `none` models `NaT`. -/
def parseDate (cs : List Char) : Option (ℕ × ℕ × ℕ) :=
  let t := stripChars cs
  let ys := t.takeWhile Char.isDigit
  match t.dropWhile Char.isDigit with
  | '-' :: r2 =>
    let ms := r2.takeWhile Char.isDigit
    match r2.dropWhile Char.isDigit with
    | '-' :: r4 =>
      let ds := r4.takeWhile Char.isDigit
      if r4.dropWhile Char.isDigit = [] ∧ ys.length = 4 ∧ 1 ≤ ms.length ∧
          ms.length ≤ 2 ∧ 1 ≤ ds.length ∧ ds.length ≤ 2 ∧ 1 ≤ valFold ms ∧
          valFold ms ≤ 12 ∧ 1 ≤ valFold ds ∧ valFold ds ≤ 31 then
        some (valFold ys, valFold ms, valFold ds)
      else none
    | _ => none
  | _ => none

/-- Converts one cell with `to_datetime(.., errors="coerce")`: dates pass
through, parseable strings become dates, anything else becomes null. -/
def dateVal (v : Value) : Value :=
  match v with
  | Value.str s =>
    match parseDate s with
    | some (y, m, d) => Value.date y m d
    | none => Value.null
  | Value.date y m d => Value.date y m d
  | _ => Value.null

/-- Calendar month names, January first. -/
def monthOrder : List (List Char) :=
  ["January", "February", "March", "April", "May", "June", "July", "August",
    "September", "October", "November", "December"].map String.toList

/-- Name of month `m` (1-based). -/
def monthName (m : ℕ) : List Char := monthOrder.getD (m - 1) []

/-- Model of `col.dt.month_name()` on one cell. -/
def monthCell (v : Value) : Value :=
  match v with
  | Value.date _ m _ => Value.str (monthName m)
  | _ => Value.null

/-- Model of `col.dt.year` on one cell. -/
def yearCell (v : Value) : Value :=
  match v with
  | Value.date y _ _ => Value.num (mkRat y 1)
  | _ => Value.null

/-!  ### Column names used by the program -/

/-- Column name constants of the pipeline and the dashboard. -/
def nDateInjury : List Char := "Date of Injury".toList

/-- Column name of the return date. -/
def nDateReturn : List Char := "Date of return".toList

/-- Canonical player-name column. -/
def nPlayer : List Char := "Player_Name".toList

/-- Canonical team column. -/
def nTeam : List Char := "Team".toList

/-- Season column. -/
def nSeason : List Char := "Season".toList

/-- Injury description column. -/
def nInjury : List Char := "Injury".toList

/-- Derived injury-month column. -/
def nInjuryMonth : List Char := "Injury_Month".toList

/-- Derived injury-year column. -/
def nInjuryYear : List Char := "Injury_Year".toList

/-- Derived mean rating before injury. -/
def nAvgBefore : List Char := "avg_rating_before".toList

/-- Derived mean rating after injury. -/
def nAvgAfter : List Char := "avg_rating_after".toList

/-- Derived rating change. -/
def nRatingChange : List Char := "rating_change".toList

/-- Derived mean goal difference before injury. -/
def nGdBefore : List Char := "team_gd_before".toList

/-- Derived mean goal difference during missed matches. -/
def nGdMissed : List Char := "team_gd_missed".toList

/-- Derived performance drop index. -/
def nPdi : List Char := "performance_drop_index".toList

/-!  ### The enrichment pipeline `load_data`

The five transformation phases of `load_data` after `pd.read_csv`, in
program order: date conversion, identity renaming, calendar
decomposition, numeric cleaning, aggregate derivation. -/

/-- Renames one column label (`Name`, `Team Name`, `FIFA rating`). -/
def renameOne (h : List Char) : List Char :=
  if h = "Name".toList then nPlayer
  else if h = "Team Name".toList then nTeam
  else if h = "FIFA rating".toList then "FIFA_Rating".toList
  else h

/-- Phase 1: convert the two date columns when present. -/
def parseDatesStep (f : Frame) : Frame :=
  mapCol (mapCol f nDateInjury dateVal) nDateReturn dateVal

/-- Phase 2: rename identity columns. -/
def renameStep (f : Frame) : Frame := ⟨f.headers.map renameOne, f.rows⟩

/-- Phase 3: add `Injury_Month` / `Injury_Year` (all-null when the date
column is absent). -/
def monthYearStep (f : Frame) : Frame :=
  if hasCol f nDateInjury then
    setCol (setCol f nInjuryMonth (fun r => monthCell (rowGet f.headers r nDateInjury)))
      nInjuryYear (fun r => yearCell (rowGet f.headers r nDateInjury))
  else
    setCol (setCol f nInjuryMonth (fun _ => Value.null)) nInjuryYear (fun _ => Value.null)

/-- Substring containment test, as the Python `in` operator on
strings. -/
def isInfixB (pat : List Char) : List Char → Bool
  | [] => pat.isEmpty
  | c :: r => pat.isPrefixOf (c :: r) || isInfixB pat r

/-- Columns whose name contains the marker `Player_rating`. -/
def ratingCols (hs : List (List Char)) : List (List Char) :=
  hs.filter (fun c => isInfixB "Player_rating".toList c)

/-- Columns whose name ends with `_GD`. -/
def gdCols (hs : List (List Char)) : List (List Char) :=
  hs.filter (fun c => "_GD".toList.isSuffixOf c)

/-- Case-insensitive substring test on a column name (`pat in c.lower()`
with a lowercase pattern). -/
def hasInfixLower (pat : List Char) (c : List Char) : Bool :=
  isInfixB pat (c.map Char.toLower)

/-- Phase 4: apply `clean_numeric` to every rating and goal-difference
column. -/
def cleanStep (f : Frame) : Frame :=
  (ratingCols f.headers ++ gdCols f.headers).foldl
    (fun g c => mapCol g c clean_numeric) f

/-- Numeric content of a cell. -/
def numOf (v : Value) : Option ℚ :=
  match v with
  | Value.num q => some q
  | _ => none

/-- Model of `df[cols].mean(axis=1, skipna=True)` on one row: the mean of
the non-null cells, null when all are null. -/
def meanV (cells : List Value) : Value :=
  let qs := cells.filterMap numOf
  if qs.isEmpty then Value.null else Value.num (qDiv (qSum qs) (mkRat qs.length 1))

/-- Null-propagating subtraction of two cells, as the difference of two
float columns. -/
def vSub (a b : Value) : Value :=
  match numOf a, numOf b with
  | some x, some y => Value.num (qSub x y)
  | _, _ => Value.null

/-- The `before_cols` selection: rating columns marked `before`. -/
def beforeCols (hs : List (List Char)) : List (List Char) :=
  (ratingCols hs).filter (hasInfixLower "before".toList)

/-- The `after_cols` selection: rating columns marked `after`. -/
def afterCols (hs : List (List Char)) : List (List Char) :=
  (ratingCols hs).filter (hasInfixLower "after".toList)

/-- The `gd_before` selection: goal-difference columns marked `before`. -/
def gdBeforeCols (hs : List (List Char)) : List (List Char) :=
  (gdCols hs).filter (hasInfixLower "before".toList)

/-- The `gd_missed` selection: goal-difference columns marked `missed`. -/
def gdMissedCols (hs : List (List Char)) : List (List Char) :=
  (gdCols hs).filter (hasInfixLower "missed".toList)

/-- Phase 5, first assignment: `avg_rating_before` as the row mean of the
`before` rating columns, all-null when there are none. -/
def dStage1 (f : Frame) : Frame :=
  setCol f nAvgBefore (fun r =>
    if (beforeCols f.headers).isEmpty then Value.null
    else meanV ((beforeCols f.headers).map (rowGet f.headers r)))

/-- Phase 5, second assignment: `avg_rating_after`.  The column groups
were computed before any assignment, hence from the original headers. -/
def dStage2 (f : Frame) : Frame :=
  setCol (dStage1 f) nAvgAfter (fun r =>
    if (afterCols f.headers).isEmpty then Value.null
    else meanV ((afterCols f.headers).map (rowGet (dStage1 f).headers r)))

/-- Phase 5, third assignment: `rating_change` as the difference of the
two freshly assigned mean columns. -/
def dStage3 (f : Frame) : Frame :=
  setCol (dStage2 f) nRatingChange (fun r =>
    vSub (rowGet (dStage2 f).headers r nAvgAfter) (rowGet (dStage2 f).headers r nAvgBefore))

/-- Phase 5, fourth assignment: `team_gd_before`. -/
def dStage4 (f : Frame) : Frame :=
  setCol (dStage3 f) nGdBefore (fun r =>
    if (gdBeforeCols f.headers).isEmpty then Value.null
    else meanV ((gdBeforeCols f.headers).map (rowGet (dStage3 f).headers r)))

/-- Phase 5, fifth assignment: `team_gd_missed`. -/
def dStage5 (f : Frame) : Frame :=
  setCol (dStage4 f) nGdMissed (fun r =>
    if (gdMissedCols f.headers).isEmpty then Value.null
    else meanV ((gdMissedCols f.headers).map (rowGet (dStage4 f).headers r)))

/-- Phase 5: derive the six aggregate columns in program order, ending
with `performance_drop_index`. -/
def derivedStep (f : Frame) : Frame :=
  setCol (dStage5 f) nPdi (fun r =>
    vSub (rowGet (dStage5 f).headers r nGdBefore) (rowGet (dStage5 f).headers r nGdMissed))

/-- The table entering phase 5: dates parsed, identities renamed,
calendar columns added, numeric columns cleaned. -/
def preFrame (f : Frame) : Frame :=
  cleanStep (monthYearStep (renameStep (parseDatesStep f)))

/-- Model of `load_data` applied to an already-read table: the enrichment
pipeline. -/
def load_data (f : Frame) : Frame :=
  derivedStep (preFrame f)

/-!  ### The view composer: sidebar filters

In `main` a selection list is built per dimension only when the matching
column exists (otherwise it stays empty) and contains values drawn from
the column after `dropna`.  The season filter is additionally guarded by
column presence; the team and player filters only by nonemptiness of the
selection, which `main` guarantees implies presence. -/

/-- Keeps the rows satisfying `p`. -/
def filterRows (f : Frame) (p : List Value → Bool) : Frame :=
  ⟨f.headers, f.rows.filter p⟩

/-- Model of the three `isin` filters of `main`, applied in program
order: season (guarded by column presence and nonempty selection), then
team, then player (guarded by nonempty selection). -/
def applyFilters (f : Frame) (ss ts ps : List Value) : Frame :=
  let f1 := if hasCol f nSeason ∧ ss ≠ [] then
      filterRows f (fun r => decide (rowGet f.headers r nSeason ∈ ss)) else f
  let f2 := if ts ≠ [] then
      filterRows f1 (fun r => decide (rowGet f1.headers r nTeam ∈ ts)) else f1
  if ps ≠ [] then
    filterRows f2 (fun r => decide (rowGet f2.headers r nPlayer ∈ ps)) else f2

/-- Record count scalar (`filtered.shape[0]`). -/
def total_injuries (f : Frame) : ℕ := f.rows.length

/-!  ### Visual 1: ranking projection

`sort_values("performance_drop_index", ascending=False).head(10)` keeps
null keys, placing them after all non-null keys (`na_position="last"`),
and then truncates.  Ties among equal keys are returned in an order the
library does not specify; the model uses a stable sort. -/

/-- Sort key of the ranking: the numeric performance-drop cell. -/
def pdiKey (hs : List (List Char)) (r : List Value) : Option ℚ :=
  numOf (rowGet hs r nPdi)

/-- Rows with a non-null performance drop index, sorted descending. -/
def sortedNonNullPdi (f : Frame) : List (List Value) :=
  List.insertionSort
    (fun r1 r2 => ((pdiKey f.headers r1).getD 0) ≥ ((pdiKey f.headers r2).getD 0))
    (f.rows.filter (fun r => (pdiKey f.headers r).isSome))

/-- Rows with a null performance drop index, in original order. -/
def nullPdiRows (f : Frame) : List (List Value) :=
  f.rows.filter (fun r => ! (pdiKey f.headers r).isSome)

/-- Model of the `top_drops` projection: guarded by at least one
non-null index, then sort (nulls last) and take 10. -/
def top_drops (f : Frame) : Option (List (List Value)) :=
  if 0 < f.rows.countP (fun r => (pdiKey f.headers r).isSome) then
    some ((sortedNonNullPdi f ++ nullPdiRows f).take 10)
  else none

/-- Ranking projection as the specification words it: the subset
restricted to non-null `performance_drop_index`, sorted descending,
truncated to the top 10. -/
def rankingProjSpec (f : Frame) : List (List Value) :=
  (sortedNonNullPdi f).take 10

/-!  ### Visual 3: the frequency grid -/

/-- A pivot table: row labels (teams), column labels (month names) and
the row-major count matrix. -/
structure Grid where
  gTeams : List Value
  gMonths : List (List Char)
  gCounts : List (List ℕ)
deriving DecidableEq

/-- The grouping keys of the heatmap: (team, month) per row, dropping
rows where either key is null, as `groupby` does. -/
def teamMonthPairs (f : Frame) : List (Value × Value) :=
  f.rows.filterMap (fun r =>
    if rowGet f.headers r nTeam ≠ Value.null ∧
        rowGet f.headers r nInjuryMonth ≠ Value.null then
      some (rowGet f.headers r nTeam, rowGet f.headers r nInjuryMonth)
    else none)

/-- Lexicographic comparison of character lists. -/
def charsLeB : List Char → List Char → Bool
  | [], _ => true
  | _ :: _, [] => false
  | a :: as, b :: bs => if a = b then charsLeB as bs else decide (a < b)

/-- Total comparison on cell values, used to model the ascending key
order `groupby(sort=True)` produces; the grouped keys occurring here are
strings. -/
def valueLeB : Value → Value → Bool
  | Value.null, _ => true
  | _, Value.null => false
  | Value.num a, Value.num b => decide (a ≤ b)
  | Value.num _, _ => true
  | _, Value.num _ => false
  | Value.str a, Value.str b => charsLeB a b
  | Value.str _, _ => true
  | _, Value.str _ => false
  | Value.date y m d, Value.date y2 m2 d2 =>
    if y = y2 then (if m = m2 then decide (d ≤ d2) else decide (m < m2))
    else decide (y < y2)

/-- Teams appearing in the grouped pairs, in ascending order. -/
def heatTeams (f : Frame) : List Value :=
  List.insertionSort (fun a b => valueLeB a b = true)
    ((teamMonthPairs f).map Prod.fst).dedup

/-- Months appearing in the grouped pairs, in calendar order: the
`reindex` keeps exactly the month columns present in the pivot. -/
def heatMonths (f : Frame) : List (List Char) :=
  monthOrder.filter (fun m => (teamMonthPairs f).any (fun p => decide (p.2 = Value.str m)))

/-- Model of the heatmap pivot: counts per (team, present month), with
combinations missing from the grouped counts filled by `fillna(0)`. -/
def heat_pivot (f : Frame) : Option Grid :=
  if hasCol f nTeam ∧ hasCol f nInjuryMonth then
    if teamMonthPairs f = [] then none
    else some
      { gTeams := heatTeams f
        gMonths := heatMonths f
        gCounts := (heatTeams f).map (fun t => (heatMonths f).map (fun m =>
          (teamMonthPairs f).countP (fun p => decide (p = (t, Value.str m))))) }
  else none

/-- Frequency grid as the claim words it: a team-by-calendar-month
matrix, with a column for each of the twelve months. -/
def specFreqGrid (f : Frame) : Grid :=
  { gTeams := heatTeams f
    gMonths := monthOrder
    gCounts := (heatTeams f).map (fun t => monthOrder.map (fun m =>
      (teamMonthPairs f).countP (fun p => decide (p = (t, Value.str m))))) }

/-!  ### Visual 5: the comeback leaderboard -/

/-- One aggregated leaderboard row. -/
structure LbRow where
  player : Value
  team : Value
  injCount : ℕ
  avgB : Value
  avgA : Value
  avgC : Value
deriving DecidableEq

/-- Grouping key of the leaderboard: (player, team), none when either is
null, as `groupby` drops null keys. -/
def keyOf (hs : List (List Char)) (r : List Value) : Option (Value × Value) :=
  if rowGet hs r nPlayer ≠ Value.null ∧ rowGet hs r nTeam ≠ Value.null then
    some (rowGet hs r nPlayer, rowGet hs r nTeam)
  else none

/-- The grouped key list, one entry per contributing row. -/
def lbPairs (f : Frame) : List (Value × Value) := f.rows.filterMap (keyOf f.headers)

/-- Lexicographic comparison of key pairs. -/
def pairLeB (a b : Value × Value) : Bool :=
  if a.1 = b.1 then valueLeB a.2 b.2 else valueLeB a.1 b.1

/-- Distinct group keys in ascending order. -/
def lbKeys (f : Frame) : List (Value × Value) :=
  List.insertionSort (fun a b => pairLeB a b = true) (lbPairs f).dedup

/-- Rows of the group keyed by `k`. -/
def keyedRows (f : Frame) (k : Value × Value) : List (List Value) :=
  f.rows.filter (fun r => decide (keyOf f.headers r = some k))

/-- One leaderboard row: `Injuries_Count` counts the non-null `Injury`
cells of the group (falling back to `Player_Name` when the column is
absent), and the three means ignore nulls, as `agg` computes them. -/
def mkLbRow (f : Frame) (k : Value × Value) : LbRow :=
  { player := k.1
    team := k.2
    injCount :=
      if hasCol f nInjury then
        (keyedRows f k).countP (fun r => decide (rowGet f.headers r nInjury ≠ Value.null))
      else
        (keyedRows f k).countP (fun r => decide (rowGet f.headers r nPlayer ≠ Value.null))
    avgB := meanV ((keyedRows f k).map (fun r => rowGet f.headers r nAvgBefore))
    avgA := meanV ((keyedRows f k).map (fun r => rowGet f.headers r nAvgAfter))
    avgC := meanV ((keyedRows f k).map (fun r => rowGet f.headers r nRatingChange)) }

/-- The aggregated table, one row per group key. -/
def lbTable (f : Frame) : List LbRow := (lbKeys f).map (mkLbRow f)

/-- Descending order on mean rating change, null means last. -/
def lbLeB (a b : LbRow) : Bool :=
  match numOf a.avgC, numOf b.avgC with
  | some x, some y => decide (x ≥ y)
  | some _, none => true
  | none, some _ => false
  | none, none => true

/-- Model of the leaderboard: guarded as in `main` by the presence of
`Player_Name` and `rating_change`; grouping on an absent `Team` column
would raise `KeyError` in pandas and is modelled as producing no
output. -/
def leaderboard (f : Frame) : Option (List LbRow) :=
  if hasCol f nPlayer ∧ hasCol f nRatingChange then
    if hasCol f nTeam then
      some ((List.insertionSort (fun a b => lbLeB a b = true) (lbTable f)).take 15)
    else none
  else none

/-!  ### Concrete tables used to instantiate the claims -/

/-- String cell shorthand for the concrete tables. -/
def S (s : String) : Value := Value.str s.toList

/-- A one-row table with unparseable injury and return dates and an
unparseable rating cell. -/
def c1Frame : Frame :=
  ⟨["Date of Injury".toList, "Date of return".toList, "Player_rating_x".toList],
   [[S "not a date", S "2021-13-99", S "abc"]]⟩

/-- Two goal-difference records, one with an uncleanable `before` cell:
its performance drop index comes out null. -/
def c2Frame : Frame :=
  ⟨["Name".toList, "before_GD".toList, "missed_GD".toList],
   [[S "A", S "2", S "-1"], [S "B", S "N.A.", S "0"]]⟩

/-- One record with two `before` rating columns (one a sentinel) and one
`after` column. -/
def c5Frame : Frame :=
  ⟨["Player_rating_before_game".toList, "Player_rating_before_x".toList,
    "Player_rating_after_game".toList],
   [[S "5", S "N.A.", S "7"]]⟩

/-- One record with goal difference 2 before and -1 missed. -/
def c6Frame : Frame :=
  ⟨["before_GD".toList, "missed_GD".toList], [[S "2", S "-1"]]⟩

/-- An enriched-shaped table with season, team and player columns. -/
def c7Frame : Frame :=
  ⟨[nSeason, nTeam, nPlayer],
   [[S "2020", S "A", S "p"], [S "2021", S "B", S "q"]]⟩

/-- Three injury records: TeamA in March twice, TeamB in January once. -/
def c8Frame : Frame :=
  ⟨["Name".toList, "Team Name".toList, "Date of Injury".toList],
   [[S "a", S "TeamA", S "2021-03-05"], [S "b", S "TeamA", S "2021-03-10"],
    [S "c", S "TeamB", S "2021-01-01"]]⟩

/-- Two records of one (player, team) group, one with a null `Injury`
cell; rating change 1 and 3. -/
def c9Frame : Frame :=
  ⟨["Name".toList, "Team Name".toList, "Injury".toList,
    "Player_rating_before_game".toList, "Player_rating_after_game".toList],
   [[S "X", S "Y", Value.null, S "5", S "6"],
    [S "X", S "Y", S "Knee", S "5", S "8"]]⟩

/-- The same group with both `Injury` cells present. -/
def c9Frame2 : Frame :=
  ⟨["Name".toList, "Team Name".toList, "Injury".toList,
    "Player_rating_before_game".toList, "Player_rating_after_game".toList],
   [[S "X", S "Y", S "Knee", S "5", S "6"],
    [S "X", S "Y", S "Ankle", S "5", S "8"]]⟩

/-- Two injury records, one with a null team cell. -/
def c10Frame : Frame :=
  ⟨["Name".toList, "Team Name".toList, "Injury".toList],
   [[S "X", S "Y", S "Knee"], [S "Z", Value.null, S "Hip"]]⟩

/-!  ### Decimal shape of every parsed value

Every value the float parser can produce is a decimal rational.  This
drives both the idempotence of `clean_numeric` and the exactness of the
rendering round trip. -/

/-- Rationals of the form `n / 10 ^ k`: exactly the values a finite
decimal literal can denote. -/
def IsDecimal (q : ℚ) : Prop := ∃ (n : ℤ) (k : ℕ), q = Rat.divInt n ((10 : ℤ) ^ k)

theorem isDecimal_decScale (m s : ℕ) (e : ℤ) : IsDecimal (decScale m s e) := by
  cases e with
  | ofNat p => exact ⟨m * 10 ^ p, s, rfl⟩
  | negSucc p => exact ⟨m, s + p + 1, rfl⟩

theorem isDecimal_qNeg (q : ℚ) (h : IsDecimal q) : IsDecimal (qNeg q) := by
  obtain ⟨n, k, rfl⟩ := h
  exact ⟨-n, k, by rw [qNeg_eq, Rat.neg_divInt]⟩

theorem parseUnsigned_isDecimal (cs : List Char) (q : ℚ)
    (h : parseUnsigned cs = some q) : IsDecimal q := by
  unfold parseUnsigned at h
  rcases hm : parseMantissa (cs.takeWhile (fun c => ! isExpChar c)) with _ | ⟨v, s⟩ <;>
    rw [hm] at h
  · exact Option.noConfusion h
  · rcases hd : cs.dropWhile (fun c => ! isExpChar c) with _ | ⟨c, r⟩ <;> rw [hd] at h
    · have h2 : decScale v s 0 = q := Option.some_inj.mp h
      exact h2 ▸ isDecimal_decScale v s 0
    · have h2 : Option.map (fun e => decScale v s e) (parseExp r) = some q := h
      rcases he : parseExp r with _ | e <;> rw [he] at h2
      · exact Option.noConfusion h2
      · simp only [Option.map_some'] at h2
        have h3 : decScale v s e = q := Option.some_inj.mp h2
        exact h3 ▸ isDecimal_decScale v s e

theorem parsePyFloat_isDecimal (cs : List Char) (q : ℚ)
    (h : parsePyFloat cs = some q) : IsDecimal q := by
  rcases cs with _ | ⟨c, r⟩
  · exact parseUnsigned_isDecimal [] q h
  · have h0 : (if c = '+' then parseUnsigned r
        else if c = '-' then (parseUnsigned r).map qNeg
        else parseUnsigned (c :: r)) = some q := h
    by_cases h1 : c = '+'
    · rw [if_pos h1] at h0; exact parseUnsigned_isDecimal _ _ h0
    · rw [if_neg h1] at h0
      by_cases h2 : c = '-'
      · rw [if_pos h2] at h0
        have h3 : Option.map qNeg (parseUnsigned r) = some q := h0
        rcases hu : parseUnsigned r with _ | u <;> rw [hu] at h3
        · exact Option.noConfusion h3
        · simp only [Option.map_some'] at h3
          exact (Option.some_inj.mp h3) ▸ isDecimal_qNeg u (parseUnsigned_isDecimal _ _ hu)
      · rw [if_neg h2] at h0; exact parseUnsigned_isDecimal _ _ h0

theorem cleanTrimmed_shape (t : List Char) :
    cleanTrimmed t = Value.null ∨
      ∃ q, cleanTrimmed t = Value.num q ∧ IsDecimal q := by
  unfold cleanTrimmed
  by_cases hs : t ∈ sentinels
  · rw [if_pos hs]; left; rfl
  · rw [if_neg hs]
    rcases hp : parsePyFloat (stripChars ((dropParen t).filter (fun c => c ≠ ','))) with _ | q
    · left; rfl
    · right; exact ⟨q, rfl, parsePyFloat_isDecimal _ _ hp⟩

theorem clean_numeric_shape (v : Value) :
    clean_numeric v = Value.null ∨
      ∃ q, clean_numeric v = Value.num q ∧ IsDecimal q := by
  cases v with
  | null => left; rfl
  | num q => exact cleanTrimmed_shape _
  | str s => exact cleanTrimmed_shape _
  | date y m d => exact cleanTrimmed_shape _

/-!  ### Correctness of `factorOut` -/

theorem factorOut_spec (p : ℕ) (hp : 2 ≤ p) :
    ∀ (fuel n : ℕ), n ≠ 0 → n ≤ fuel →
      p ^ (factorOut p fuel n).1 * (factorOut p fuel n).2 = n ∧
        ¬ p ∣ (factorOut p fuel n).2 := by
  intro fuel
  induction fuel with
  | zero => intro n hn h0; omega
  | succ f ih =>
    intro n hn hle
    rw [factorOut]
    by_cases hc : 2 ≤ p ∧ n ≠ 0 ∧ n % p = 0
    · rw [if_pos hc]
      have hdvd : p ∣ n := Nat.dvd_of_mod_eq_zero hc.2.2
      have hq0 : n / p ≠ 0 := by
        have : 0 < n / p :=
          Nat.div_pos (Nat.le_of_dvd (Nat.pos_of_ne_zero hn) hdvd) (by omega)
        omega
      have hql : n / p ≤ f := by
        have : n / p < n := Nat.div_lt_self (Nat.pos_of_ne_zero hn) (by omega)
        omega
      obtain ⟨h1, h2⟩ := ih (n / p) hq0 hql
      constructor
      · rw [pow_succ]
        calc p ^ (factorOut p f (n / p)).1 * p * (factorOut p f (n / p)).2
            = p ^ (factorOut p f (n / p)).1 * (factorOut p f (n / p)).2 * p := by ring
          _ = n / p * p := by rw [h1]
          _ = n := Nat.div_mul_cancel hdvd
      · exact h2
    · rw [if_neg hc]
      refine ⟨by simp, ?_⟩
      intro hdvd
      exact hc ⟨hp, hn, Nat.mod_eq_zero_of_dvd hdvd⟩

theorem factorOutAll_spec (p n : ℕ) (hp : 2 ≤ p) (hn : n ≠ 0) :
    p ^ (factorOutAll p n).1 * (factorOutAll p n).2 = n ∧
      ¬ p ∣ (factorOutAll p n).2 :=
  factorOut_spec p hp n n hn le_rfl

/-!  ### Digit strings: values and shapes -/

theorem digitChar_isDigit (d : ℕ) (h : d < 10) : (Nat.digitChar d).isDigit = true := by
  interval_cases d <;> decide

theorem digitVal_digitChar (d : ℕ) (h : d < 10) : digitVal (Nat.digitChar d) = d := by
  interval_cases d <;> decide

theorem digitChars_all_digit (m : ℕ) : ∀ c ∈ digitChars m, c.isDigit = true := by
  rw [digitChars_eq]
  intro c hc
  rw [List.mem_reverse, List.mem_map] at hc
  obtain ⟨d, hd, rfl⟩ := hc
  exact digitChar_isDigit d (Nat.digits_lt_base (by norm_num) hd)

theorem foldl_reverse_ofDigits (L : List ℕ) :
    ∀ a : ℕ, L.reverse.foldl (fun x d => 10 * x + d) a =
      a * 10 ^ L.length + Nat.ofDigits 10 L := by
  induction L with
  | nil => intro a; simp
  | cons x L ih =>
    intro a
    rw [List.reverse_cons, List.foldl_append, ih a]
    simp only [List.foldl_cons, List.foldl_nil, Nat.ofDigits_cons, List.length_cons]
    ring

theorem valFold_digitChars (m : ℕ) : valFold (digitChars m) = m := by
  rw [digitChars_eq, ← List.map_reverse, valFold, List.foldl_map]
  rw [List.foldl_ext (fun x c => 10 * x + digitVal (Nat.digitChar c))
    (fun x d => 10 * x + d) 0 ?hext]
  · rw [foldl_reverse_ofDigits]
    simp [Nat.ofDigits_digits]
  case hext =>
    intro a b hb
    rw [List.mem_reverse] at hb
    simp only []
    rw [digitVal_digitChar b (Nat.digits_lt_base (by norm_num) hb)]

theorem valFold_cons (c : Char) (l : List Char) :
    valFold (c :: l) = l.foldl (fun a x => 10 * a + digitVal x) (digitVal c) := by
  simp [valFold]

theorem valFold_from (l : List Char) :
    ∀ a : ℕ, l.foldl (fun x c => 10 * x + digitVal c) a =
      a * 10 ^ l.length + valFold l := by
  induction l with
  | nil => intro a; simp [valFold]
  | cons c l ih =>
    intro a
    rw [List.foldl_cons, ih (10 * a + digitVal c), valFold_cons, ih (digitVal c)]
    simp only [List.length_cons]
    ring

theorem valFold_append (xs ys : List Char) :
    valFold (xs ++ ys) = valFold xs * 10 ^ ys.length + valFold ys := by
  rw [valFold, List.foldl_append, ← valFold, valFold_from]

theorem valFold_replicate_zero (p : ℕ) (l : List Char) :
    valFold (List.replicate p '0' ++ l) = valFold l := by
  rw [valFold_append]
  have : valFold (List.replicate p '0') = 0 := by
    induction p with
    | zero => rfl
    | succ n ih =>
      rw [List.replicate_succ, valFold_cons]
      have : digitVal '0' = 0 := by decide
      rw [this, valFold_from]
      simpa [valFold] using ih
  rw [this]
  simp

/-!  ### Splitting a rendered string at its decimal point -/

theorem takeWhile_middle {p : Char → Bool} (xs : List Char) (y : Char)
    (ys : List Char) (hxs : ∀ x ∈ xs, p x = true) (hy : p y = false) :
    (xs ++ y :: ys).takeWhile p = xs ∧ (xs ++ y :: ys).dropWhile p = y :: ys := by
  induction xs with
  | nil => simp [List.takeWhile, List.dropWhile, hy]
  | cons x xs ih =>
    have hx : p x = true := hxs x (by simp)
    obtain ⟨h1, h2⟩ := ih (fun a ha => hxs a (by simp [ha]))
    constructor
    · rw [List.cons_append, List.takeWhile_cons, hx]
      simp [h1]
    · rw [List.cons_append, List.dropWhile_cons, hx]
      simpa using h2

theorem takeWhile_all {p : Char → Bool} (xs : List Char)
    (hxs : ∀ x ∈ xs, p x = true) :
    xs.takeWhile p = xs ∧ xs.dropWhile p = [] := by
  induction xs with
  | nil => simp
  | cons x xs ih =>
    have hx : p x = true := hxs x (by simp)
    obtain ⟨h1, h2⟩ := ih (fun a ha => hxs a (by simp [ha]))
    constructor
    · rw [List.takeWhile_cons, hx]
      simp [h1]
    · rw [List.dropWhile_cons, hx]
      simpa using h2

/-!  ### Character-class facts -/

theorem digit_ne (c x : Char) (h : c.isDigit = true) (hx : x.isDigit = false) :
    c ≠ x := by
  intro he
  subst he
  rw [h] at hx
  exact Bool.noConfusion hx

theorem isExpChar_eq_false (c : Char) (h : c.isDigit = true) :
    isExpChar c = false := by
  by_contra hx
  have hx2 : isExpChar c = true := by simpa using hx
  rcases (by simpa [isExpChar] using hx2 : c = 'e' ∨ c = 'E') with rfl | rfl
  · exact absurd h (by decide)
  · exact absurd h (by decide)

theorem not_ws_of_digit (c : Char) (h : c.isDigit = true) :
    c.isWhitespace = false := by
  by_contra hx
  have hw : c.isWhitespace = true := by simpa using hx
  rcases (by simpa [Char.isWhitespace] using hw :
      ((c = ' ' ∨ c = '\t') ∨ c = '\r') ∨ c = '\n') with ((rfl | rfl) | rfl) | rfl <;>
    exact absurd h (by decide)

/-!  ### Facts about the rendered digit string -/

theorem renderFull_digit (m k : ℕ) :
    ∀ c ∈ renderFull m k, c.isDigit = true := by
  intro c hc
  rcases List.mem_append.mp hc with h | h
  · rw [List.eq_of_mem_replicate h]; decide
  · exact digitChars_all_digit m c h

theorem renderFull_length (m k : ℕ) : k + 1 ≤ (renderFull m k).length := by
  rw [renderFull, List.length_append, List.length_replicate]
  omega

theorem valFold_renderFull (m k : ℕ) : valFold (renderFull m k) = m := by
  rw [renderFull, valFold_replicate_zero, valFold_digitChars]

theorem renderBody_chars (m k : ℕ) :
    ∀ c ∈ renderBody m k, c.isDigit = true ∨ c = '.' := by
  intro c hc
  rw [renderBody] at hc
  by_cases hk : k = 0
  · rw [if_pos hk] at hc
    rcases List.mem_append.mp hc with h | h
    · exact Or.inl (renderFull_digit m k c h)
    · rcases (by simpa using h : c = '.' ∨ c = '0') with rfl | rfl
      · exact Or.inr rfl
      · exact Or.inl (by decide)
  · rw [if_neg hk] at hc
    rcases List.mem_append.mp hc with h | h
    · exact Or.inl (renderFull_digit m k c (List.mem_of_mem_take h))
    · rcases h with _ | ⟨_, h⟩
      · exact Or.inr rfl
      · exact Or.inl (renderFull_digit m k c (List.mem_of_mem_drop h))

theorem renderBody_dot (m k : ℕ) : '.' ∈ renderBody m k := by
  rw [renderBody]
  by_cases hk : k = 0
  · rw [if_pos hk]
    exact List.mem_append.mpr (Or.inr (by simp))
  · rw [if_neg hk]
    exact List.mem_append.mpr (Or.inr (by simp))

theorem renderBody_not_ws (m k : ℕ) :
    ∀ c ∈ renderBody m k, c.isWhitespace = false := by
  intro c hc
  rcases renderBody_chars m k c hc with h | rfl
  · exact not_ws_of_digit c h
  · decide

theorem renderBody_no_paren (m k : ℕ) : '(' ∉ renderBody m k := by
  intro hc
  rcases renderBody_chars m k '(' hc with h | h
  · exact absurd h (by decide)
  · exact absurd h (by decide)

theorem renderBody_no_comma (m k : ℕ) : ',' ∉ renderBody m k := by
  intro hc
  rcases renderBody_chars m k ',' hc with h | h
  · exact absurd h (by decide)
  · exact absurd h (by decide)

theorem renderBody_not_sentinel (m k : ℕ) : renderBody m k ∉ sentinels := by
  intro h
  have hdot := renderBody_dot m k
  have hchars := renderBody_chars m k
  rcases (by simpa [sentinels] using h :
      renderBody m k = [] ∨ renderBody m k = "N.A.".toList ∨
        renderBody m k = "N.A".toList ∨ renderBody m k = "NA".toList ∨
        renderBody m k = "n.a.".toList ∨ renderBody m k = "-".toList ∨
        renderBody m k = "None".toList) with h0 | h0 | h0 | h0 | h0 | h0 | h0
  · rw [h0] at hdot; exact absurd hdot (by simp)
  · have : 'N' ∈ renderBody m k := by rw [h0]; decide
    rcases hchars 'N' this with hd | hd <;> exact absurd hd (by decide)
  · have : 'N' ∈ renderBody m k := by rw [h0]; decide
    rcases hchars 'N' this with hd | hd <;> exact absurd hd (by decide)
  · have : 'N' ∈ renderBody m k := by rw [h0]; decide
    rcases hchars 'N' this with hd | hd <;> exact absurd hd (by decide)
  · have : 'n' ∈ renderBody m k := by rw [h0]; decide
    rcases hchars 'n' this with hd | hd <;> exact absurd hd (by decide)
  · rw [h0] at hdot
    exact absurd hdot (by decide)
  · have : 'N' ∈ renderBody m k := by rw [h0]; decide
    rcases hchars 'N' this with hd | hd <;> exact absurd hd (by decide)

theorem neg_renderBody_not_sentinel (m k : ℕ) :
    ('-' :: renderBody m k) ∉ sentinels := by
  intro h
  have hdot := renderBody_dot m k
  rcases (by simpa [sentinels] using h :
      '-' :: renderBody m k = [] ∨ '-' :: renderBody m k = "N.A.".toList ∨
        '-' :: renderBody m k = "N.A".toList ∨ '-' :: renderBody m k = "NA".toList ∨
        '-' :: renderBody m k = "n.a.".toList ∨ '-' :: renderBody m k = "-".toList ∨
        '-' :: renderBody m k = "None".toList) with h0 | h0 | h0 | h0 | h0 | h0 | h0
  · exact List.noConfusion h0
  · exact absurd (List.head_eq_of_cons_eq h0) (by decide)
  · exact absurd (List.head_eq_of_cons_eq h0) (by decide)
  · exact absurd (List.head_eq_of_cons_eq h0) (by decide)
  · exact absurd (List.head_eq_of_cons_eq h0) (by decide)
  · have h1 : renderBody m k = [] := List.tail_eq_of_cons_eq h0
    rw [h1] at hdot
    exact absurd hdot (by simp)
  · exact absurd (List.head_eq_of_cons_eq h0) (by decide)

/-!  ### Parsing a rendered decimal string recovers its value -/

theorem parseMantissa_split (I F : List Char) (hI : ∀ c ∈ I, c.isDigit = true)
    (hF : ∀ c ∈ F, c.isDigit = true) (hIne : I ≠ []) :
    parseMantissa (I ++ '.' :: F) = some (valFold (I ++ F), F.length) := by
  obtain ⟨h1, h2⟩ := takeWhile_middle I '.' F hI (by decide)
  unfold parseMantissa
  rw [h1, h2]
  show (if I.isEmpty = true ∧ F.isEmpty = true ∨ ¬ F.all Char.isDigit = true then none
      else some (valFold (I ++ F), F.length)) = some (valFold (I ++ F), F.length)
  rw [if_neg ?hcond]
  case hcond =>
    intro hcon
    rcases hcon with ⟨hie, _⟩ | hall
    · exact hIne (List.isEmpty_iff.mp hie)
    · exact hall (List.all_eq_true.mpr hF)

theorem parseUnsigned_split (I F : List Char) (hI : ∀ c ∈ I, c.isDigit = true)
    (hF : ∀ c ∈ F, c.isDigit = true) (hIne : I ≠ []) :
    parseUnsigned (I ++ '.' :: F) = some (decScale (valFold (I ++ F)) F.length 0) := by
  have hall : ∀ c ∈ I ++ '.' :: F, (! isExpChar c) = true := by
    intro c hc
    rcases List.mem_append.mp hc with h | h
    · simp [isExpChar_eq_false c (hI c h)]
    · rcases (by simpa using h : c = '.' ∨ c ∈ F) with rfl | h2
      · decide
      · simp [isExpChar_eq_false c (hF c h2)]
  obtain ⟨e1, e2⟩ := takeWhile_all (I ++ '.' :: F) hall
  unfold parseUnsigned
  rw [e1, e2, parseMantissa_split I F hI hF hIne]

theorem renderBody_take_digit (m k : ℕ) :
    ∀ c ∈ (renderFull m k).take ((renderFull m k).length - k), c.isDigit = true :=
  fun c hc => renderFull_digit m k c (List.mem_of_mem_take hc)

theorem renderBody_drop_digit (m k : ℕ) :
    ∀ c ∈ (renderFull m k).drop ((renderFull m k).length - k), c.isDigit = true :=
  fun c hc => renderFull_digit m k c (List.mem_of_mem_drop hc)

theorem renderBody_take_ne_nil (m k : ℕ) :
    (renderFull m k).take ((renderFull m k).length - k) ≠ [] := by
  have hl := renderFull_length m k
  intro h
  have := congrArg List.length h
  rw [List.length_take] at this
  simp at this
  omega

theorem parseUnsigned_renderBody (m k : ℕ) :
    ∃ v s, parseUnsigned (renderBody m k) = some (decScale v s 0) ∧
      (decScale v s 0 : ℚ) = Rat.divInt (m : ℤ) ((10 : ℤ) ^ k) := by
  by_cases hk : k = 0
  · subst hk
    refine ⟨valFold (renderFull m 0 ++ ['0']), 1, ?_, ?_⟩
    · rw [renderBody, if_pos rfl]
      rw [parseUnsigned_split (renderFull m 0) ['0'] (renderFull_digit m 0)
        (by intro c hc; rcases (by simpa using hc : c = '0') with rfl; decide)
        (by
          intro h
          have := renderFull_length m 0
          rw [h] at this
          simp at this)]
      rfl
    · have hv : valFold (renderFull m 0 ++ ['0']) = m * 10 := by
        rw [valFold_append, valFold_renderFull]
        have h0 : valFold ['0'] = 0 := by decide
        rw [h0]
        norm_num
      rw [hv]
      show Rat.divInt ((m * 10 : ℕ) * 10 ^ 0) ((10 : ℤ) ^ 1) = Rat.divInt (m : ℤ) ((10 : ℤ) ^ 0)
      rw [Rat.divInt_eq_div, Rat.divInt_eq_div]
      push_cast
      field_simp
  · refine ⟨valFold (renderFull m k), k, ?_, ?_⟩
    · rw [renderBody, if_neg hk]
      rw [parseUnsigned_split _ _ (renderBody_take_digit m k) (renderBody_drop_digit m k)
        (renderBody_take_ne_nil m k)]
      rw [List.take_append_drop]
      have hlen : ((renderFull m k).drop ((renderFull m k).length - k)).length = k := by
        rw [List.length_drop]
        have := renderFull_length m k
        omega
      rw [hlen]
    · show Rat.divInt ((valFold (renderFull m k) : ℤ) * 10 ^ 0) ((10 : ℤ) ^ k) = _
      rw [valFold_renderFull, pow_zero, mul_one]

/-!  ### The cleaning steps are no-ops on a rendered number -/

theorem dropWhile_id_of_none {p : Char → Bool} (l : List Char)
    (h : ∀ c ∈ l, p c = false) : l.dropWhile p = l := by
  cases l with
  | nil => rfl
  | cons c r =>
    rw [List.dropWhile_cons, h c (by simp)]
    simp

theorem stripChars_id (l : List Char) (h : ∀ c ∈ l, c.isWhitespace = false) :
    stripChars l = l := by
  rw [stripChars, dropWhile_id_of_none l h,
    dropWhile_id_of_none l.reverse (fun c hc => h c (List.mem_reverse.mp hc)),
    List.reverse_reverse]

theorem dropParenGo_id (l : List Char) : ∀ (fuel : ℕ), '(' ∉ l →
    dropParenGo fuel l = l := by
  induction l with
  | nil => intro fuel _; cases fuel <;> rfl
  | cons c r ih =>
    intro fuel h
    cases fuel with
    | zero => rfl
    | succ f =>
      rw [dropParenGo, if_neg ?hc1]
      · rw [ih f (fun hc => h (List.mem_cons_of_mem c hc))]
      case hc1 =>
        intro hc
        rw [← hc] at h
        exact h (List.mem_cons_self c r)

theorem dropParen_id (l : List Char) (h : '(' ∉ l) : dropParen l = l :=
  dropParenGo_id l l.length h

theorem cleanTrimmed_eq_parse (t : List Char) (hsen : t ∉ sentinels)
    (hpar : '(' ∉ t) (hcom : ',' ∉ t) (hws : ∀ c ∈ t, c.isWhitespace = false) :
    cleanTrimmed t =
      (match parsePyFloat t with
        | some q => Value.num q
        | none => Value.null) := by
  unfold cleanTrimmed
  rw [if_neg hsen, dropParen_id t hpar,
    List.filter_eq_self.mpr (fun a ha => by
      have : a ≠ ',' := fun he => hcom (he ▸ ha)
      simpa using this),
    stripChars_id t hws]

/-!  ### The denominator of a decimal rational factors into 2 and 5 -/

theorem renderDen_one (q : ℚ) (k0 : ℕ) (hden : q.den ∣ 10 ^ k0) :
    (factorOutAll 5 (factorOutAll 2 q.den).2).2 = 1 ∧
      q.den ∣ 10 ^ renderScale q := by
  have hd0 : q.den ≠ 0 := q.den_nz
  obtain ⟨h2eq, h2nd⟩ := factorOutAll_spec 2 q.den (by norm_num) hd0
  have hr2 : (factorOutAll 2 q.den).2 ≠ 0 := by
    intro h0
    rw [h0, mul_zero] at h2eq
    exact hd0 h2eq.symm
  obtain ⟨h5eq, h5nd⟩ := factorOutAll_spec 5 _ (by norm_num) hr2
  have hr5r2 : (factorOutAll 5 (factorOutAll 2 q.den).2).2 ∣ (factorOutAll 2 q.den).2 :=
    ⟨5 ^ (factorOutAll 5 (factorOutAll 2 q.den).2).1, by rw [mul_comm]; exact h5eq.symm⟩
  have hr2den : (factorOutAll 2 q.den).2 ∣ q.den :=
    ⟨2 ^ (factorOutAll 2 q.den).1, by rw [mul_comm]; exact h2eq.symm⟩
  have hr5den : (factorOutAll 5 (factorOutAll 2 q.den).2).2 ∣ q.den := hr5r2.trans hr2den
  have h2nr5 : ¬ 2 ∣ (factorOutAll 5 (factorOutAll 2 q.den).2).2 :=
    fun hd => h2nd (hd.trans hr5r2)
  have hcop : Nat.Coprime (factorOutAll 5 (factorOutAll 2 q.den).2).2 (10 ^ k0) := by
    have c2 : Nat.Coprime (factorOutAll 5 (factorOutAll 2 q.den).2).2 2 :=
      ((Nat.Prime.coprime_iff_not_dvd Nat.prime_two).mpr h2nr5).symm
    have c5 : Nat.Coprime (factorOutAll 5 (factorOutAll 2 q.den).2).2 5 :=
      ((Nat.Prime.coprime_iff_not_dvd Nat.prime_five).mpr h5nd).symm
    have h10 : (10 : ℕ) ^ k0 = 2 ^ k0 * 5 ^ k0 := by rw [← mul_pow]; norm_num
    rw [h10]
    exact Nat.Coprime.mul_right (c2.pow_right _) (c5.pow_right _)
  have hone : (factorOutAll 5 (factorOutAll 2 q.den).2).2 = 1 :=
    hcop.eq_one_of_dvd (hr5den.trans hden)
  refine ⟨hone, ?_⟩
  have hden2 : q.den = 2 ^ (factorOutAll 2 q.den).1 *
      5 ^ (factorOutAll 5 (factorOutAll 2 q.den).2).1 := by
    conv_lhs => rw [← h2eq, ← h5eq, hone, mul_one]
  rw [hden2, renderScale]
  have h10 : (10 : ℕ) ^ max (factorOutAll 2 q.den).1
      (factorOutAll 5 (factorOutAll 2 q.den).2).1 =
      2 ^ max (factorOutAll 2 q.den).1 (factorOutAll 5 (factorOutAll 2 q.den).2).1 *
        5 ^ max (factorOutAll 2 q.den).1 (factorOutAll 5 (factorOutAll 2 q.den).2).1 := by
    rw [← mul_pow]
    norm_num
  rw [h10]
  exact mul_dvd_mul (pow_dvd_pow 2 (le_max_left _ _)) (pow_dvd_pow 5 (le_max_right _ _))

/-!  ### The round trip: cleaning a rendered decimal value is exact -/

theorem clean_num_decimal (q : ℚ) (hq : IsDecimal q) :
    clean_numeric (Value.num q) = Value.num q := by
  obtain ⟨n0, k0, hq0⟩ := hq
  have hdenZ : ((q.den : ℤ)) ∣ (10 : ℤ) ^ k0 := by
    have := Rat.den_dvd n0 ((10 : ℤ) ^ k0)
    rw [← hq0] at this
    exact this
  have hden : q.den ∣ 10 ^ k0 := by
    have hcast : ((10 : ℤ) ^ k0) = ((10 ^ k0 : ℕ) : ℤ) := by push_cast; ring
    rw [hcast] at hdenZ
    exact_mod_cast hdenZ
  obtain ⟨hone, hdvd⟩ := renderDen_one q k0 hden
  have htmul : q.den * (10 ^ renderScale q / q.den) = 10 ^ renderScale q :=
    Nat.mul_div_cancel' hdvd
  have ht0 : 0 < 10 ^ renderScale q / q.den := by
    rcases Nat.eq_zero_or_pos (10 ^ renderScale q / q.den) with h0 | h
    · rw [h0, mul_zero] at htmul
      exact absurd htmul.symm (by positivity)
    · exact h
  have hval : Rat.divInt (renderMant q) ((10 : ℤ) ^ renderScale q) = q := by
    have htZ : ((10 : ℤ) ^ renderScale q) =
        (q.den : ℤ) * ((10 ^ renderScale q / q.den : ℕ) : ℤ) := by
      exact_mod_cast congrArg (fun n : ℕ => (n : ℤ)) htmul.symm
    rw [renderMant, htZ, Rat.divInt_mul_right (by exact_mod_cast ht0.ne')]
    exact Rat.num_divInt_den q
  show cleanTrimmed (stripChars (renderNum q)) = Value.num q
  by_cases hneg : q.num < 0
  · have hrn : renderNum q = '-' :: renderBody (renderMant q).natAbs (renderScale q) := by
      rw [renderNum, if_pos hone, if_pos hneg]
    have hws : ∀ c ∈ renderNum q, c.isWhitespace = false := by
      rw [hrn]
      intro c hc
      rcases (by simpa using hc : c = '-' ∨ c ∈ renderBody (renderMant q).natAbs (renderScale q))
        with rfl | h
      · decide
      · exact renderBody_not_ws _ _ c h
    rw [stripChars_id _ hws, hrn]
    rw [cleanTrimmed_eq_parse _ (neg_renderBody_not_sentinel _ _)
      (by
        intro hc
        rcases (by simpa using hc :
            '(' = '-' ∨ '(' ∈ renderBody (renderMant q).natAbs (renderScale q)) with h | h
        · exact absurd h (by decide)
        · exact renderBody_no_paren _ _ h)
      (by
        intro hc
        rcases (by simpa using hc :
            ',' = '-' ∨ ',' ∈ renderBody (renderMant q).natAbs (renderScale q)) with h | h
        · exact absurd h (by decide)
        · exact renderBody_no_comma _ _ h)
      (hrn ▸ hws)]
    obtain ⟨v, s, hparse, hvalue⟩ := parseUnsigned_renderBody (renderMant q).natAbs (renderScale q)
    show (match parsePyFloat ('-' :: renderBody (renderMant q).natAbs (renderScale q)) with
      | some q2 => Value.num q2
      | none => Value.null) = Value.num q
    have hpf : parsePyFloat ('-' :: renderBody (renderMant q).natAbs (renderScale q)) =
        (parseUnsigned (renderBody (renderMant q).natAbs (renderScale q))).map qNeg := by
      show (if ('-' : Char) = '+' then
          parseUnsigned (renderBody (renderMant q).natAbs (renderScale q))
        else if ('-' : Char) = '-' then
          (parseUnsigned (renderBody (renderMant q).natAbs (renderScale q))).map qNeg
        else parseUnsigned ('-' :: renderBody (renderMant q).natAbs (renderScale q))) =
        (parseUnsigned (renderBody (renderMant q).natAbs (renderScale q))).map qNeg
      rw [if_neg (by decide), if_pos rfl]
    rw [hpf, hparse]
    simp only [Option.map_some']
    have hmant_neg : renderMant q < 0 := by
      rw [renderMant]
      have : (0 : ℤ) < ((10 ^ renderScale q / q.den : ℕ) : ℤ) := by exact_mod_cast ht0
      exact mul_neg_of_neg_of_pos hneg this
    have habs : ((renderMant q).natAbs : ℤ) = -(renderMant q) :=
      Int.ofNat_natAbs_of_nonpos hmant_neg.le
    have : qNeg (decScale v s 0) = q := by
      rw [qNeg_eq, hvalue, habs, Rat.neg_divInt, neg_neg]
      exact hval
    rw [this]
  · have hrn : renderNum q = renderBody (renderMant q).natAbs (renderScale q) := by
      rw [renderNum, if_pos hone, if_neg hneg]
    rw [stripChars_id _ (hrn ▸ renderBody_not_ws (renderMant q).natAbs (renderScale q)), hrn]
    rw [cleanTrimmed_eq_parse _ (renderBody_not_sentinel _ _) (renderBody_no_paren _ _)
      (renderBody_no_comma _ _) (renderBody_not_ws _ _)]
    obtain ⟨v, s, hparse, hvalue⟩ := parseUnsigned_renderBody (renderMant q).natAbs (renderScale q)
    have hpf : parsePyFloat (renderBody (renderMant q).natAbs (renderScale q)) =
        parseUnsigned (renderBody (renderMant q).natAbs (renderScale q)) := by
      rcases hb : renderBody (renderMant q).natAbs (renderScale q) with _ | ⟨c, r⟩
      · rfl
      · have hcmem : c ∈ renderBody (renderMant q).natAbs (renderScale q) := by
          rw [hb]; simp
        have hcd := renderBody_chars _ _ c hcmem
        show (if c = '+' then _ else if c = '-' then _ else parseUnsigned (c :: r)) = _
        rw [if_neg ?c1, if_neg ?c2]
        case c1 =>
          rcases hcd with h | rfl
          · exact digit_ne c '+' h (by decide)
          · decide
        case c2 =>
          rcases hcd with h | rfl
          · exact digit_ne c '-' h (by decide)
          · decide
    rw [hpf, hparse]
    have hmant_nonneg : 0 ≤ renderMant q := by
      rw [renderMant]
      have h1 : 0 ≤ q.num := not_lt.mp hneg
      positivity
    have habs : ((renderMant q).natAbs : ℤ) = renderMant q := Int.natAbs_of_nonneg hmant_nonneg
    have : decScale v s 0 = q := by
      rw [hvalue, habs]
      exact hval
    rw [this]

/-!  ### Idempotence of the numeric cleaner -/

theorem clean_numeric_idem (v : Value) :
    clean_numeric (clean_numeric v) = clean_numeric v := by
  rcases clean_numeric_shape v with h | ⟨q, h, hq⟩
  · rw [h]; rfl
  · rw [h, clean_num_decimal q hq]

/-!  ### Case analysis on `Char.toLower`

For each character of a lowered sentinel, the original character is
either the lowercase letter itself or its uppercase partner; non-letter
characters are fixed points. -/

theorem toLower_eq_n (c : Char) (h : c.toLower = 'n') : c = 'n' ∨ c = 'N' := by
  have h2 : (if 65 ≤ c.toNat ∧ c.toNat ≤ 90 then Char.ofNat (c.toNat + 32) else c) = 'n' := h
  by_cases hc : 65 ≤ c.toNat ∧ c.toNat ≤ 90
  · rw [if_pos hc] at h2
    obtain ⟨hb1, hb2⟩ := hc
    right
    interval_cases hn : c.toNat <;>
      first
        | exact absurd h2 (by decide)
        | (rw [← Char.ofNat_toNat c, hn]; try decide)
  · rw [if_neg hc] at h2; exact Or.inl h2

theorem toLower_eq_a (c : Char) (h : c.toLower = 'a') : c = 'a' ∨ c = 'A' := by
  have h2 : (if 65 ≤ c.toNat ∧ c.toNat ≤ 90 then Char.ofNat (c.toNat + 32) else c) = 'a' := h
  by_cases hc : 65 ≤ c.toNat ∧ c.toNat ≤ 90
  · rw [if_pos hc] at h2
    obtain ⟨hb1, hb2⟩ := hc
    right
    interval_cases hn : c.toNat <;>
      first
        | exact absurd h2 (by decide)
        | (rw [← Char.ofNat_toNat c, hn]; try decide)
  · rw [if_neg hc] at h2; exact Or.inl h2

theorem toLower_eq_o (c : Char) (h : c.toLower = 'o') : c = 'o' ∨ c = 'O' := by
  have h2 : (if 65 ≤ c.toNat ∧ c.toNat ≤ 90 then Char.ofNat (c.toNat + 32) else c) = 'o' := h
  by_cases hc : 65 ≤ c.toNat ∧ c.toNat ≤ 90
  · rw [if_pos hc] at h2
    obtain ⟨hb1, hb2⟩ := hc
    right
    interval_cases hn : c.toNat <;>
      first
        | exact absurd h2 (by decide)
        | (rw [← Char.ofNat_toNat c, hn]; try decide)
  · rw [if_neg hc] at h2; exact Or.inl h2

theorem toLower_eq_e (c : Char) (h : c.toLower = 'e') : c = 'e' ∨ c = 'E' := by
  have h2 : (if 65 ≤ c.toNat ∧ c.toNat ≤ 90 then Char.ofNat (c.toNat + 32) else c) = 'e' := h
  by_cases hc : 65 ≤ c.toNat ∧ c.toNat ≤ 90
  · rw [if_pos hc] at h2
    obtain ⟨hb1, hb2⟩ := hc
    right
    interval_cases hn : c.toNat <;>
      first
        | exact absurd h2 (by decide)
        | (rw [← Char.ofNat_toNat c, hn]; try decide)
  · rw [if_neg hc] at h2; exact Or.inl h2

theorem toLower_eq_dot (c : Char) (h : c.toLower = '.') : c = '.' := by
  have h2 : (if 65 ≤ c.toNat ∧ c.toNat ≤ 90 then Char.ofNat (c.toNat + 32) else c) = '.' := h
  by_cases hc : 65 ≤ c.toNat ∧ c.toNat ≤ 90
  · rw [if_pos hc] at h2
    obtain ⟨hb1, hb2⟩ := hc
    interval_cases hn : c.toNat <;> exact absurd h2 (by decide)
  · rw [if_neg hc] at h2; exact h2

theorem toLower_eq_dash (c : Char) (h : c.toLower = '-') : c = '-' := by
  have h2 : (if 65 ≤ c.toNat ∧ c.toNat ≤ 90 then Char.ofNat (c.toNat + 32) else c) = '-' := h
  by_cases hc : 65 ≤ c.toNat ∧ c.toNat ≤ 90
  · rw [if_pos hc] at h2
    obtain ⟨hb1, hb2⟩ := hc
    interval_cases hn : c.toNat <;> exact absurd h2 (by decide)
  · rw [if_neg hc] at h2; exact h2

/-!  ### Every case variant of a sentinel cleans to null -/

theorem clean_lower_na4 (t : List Char) (h : t.map Char.toLower = ['n', '.', 'a', '.']) :
    cleanTrimmed t = Value.null := by
  obtain ⟨c1, t1, rfl, h1, h⟩ := List.map_eq_cons_iff.mp h
  obtain ⟨c2, t2, rfl, h2, h⟩ := List.map_eq_cons_iff.mp h
  obtain ⟨c3, t3, rfl, h3, h⟩ := List.map_eq_cons_iff.mp h
  obtain ⟨c4, t4, rfl, h4, h⟩ := List.map_eq_cons_iff.mp h
  rw [List.map_eq_nil_iff] at h
  subst h
  rcases toLower_eq_n c1 h1 with rfl | rfl <;>
    rw [toLower_eq_dot c2 h2, toLower_eq_dot c4 h4] <;>
    rcases toLower_eq_a c3 h3 with rfl | rfl <;>
    decide

theorem clean_lower_na3 (t : List Char) (h : t.map Char.toLower = ['n', '.', 'a']) :
    cleanTrimmed t = Value.null := by
  obtain ⟨c1, t1, rfl, h1, h⟩ := List.map_eq_cons_iff.mp h
  obtain ⟨c2, t2, rfl, h2, h⟩ := List.map_eq_cons_iff.mp h
  obtain ⟨c3, t3, rfl, h3, h⟩ := List.map_eq_cons_iff.mp h
  rw [List.map_eq_nil_iff] at h
  subst h
  rcases toLower_eq_n c1 h1 with rfl | rfl <;>
    rw [toLower_eq_dot c2 h2] <;>
    rcases toLower_eq_a c3 h3 with rfl | rfl <;>
    decide

theorem clean_lower_na2 (t : List Char) (h : t.map Char.toLower = ['n', 'a']) :
    cleanTrimmed t = Value.null := by
  obtain ⟨c1, t1, rfl, h1, h⟩ := List.map_eq_cons_iff.mp h
  obtain ⟨c2, t2, rfl, h2, h⟩ := List.map_eq_cons_iff.mp h
  rw [List.map_eq_nil_iff] at h
  subst h
  rcases toLower_eq_n c1 h1 with rfl | rfl <;>
    rcases toLower_eq_a c2 h2 with rfl | rfl <;>
    decide

theorem clean_lower_dash (t : List Char) (h : t.map Char.toLower = ['-']) :
    cleanTrimmed t = Value.null := by
  obtain ⟨c1, t1, rfl, h1, h⟩ := List.map_eq_cons_iff.mp h
  rw [List.map_eq_nil_iff] at h
  subst h
  rw [toLower_eq_dash c1 h1]
  decide

theorem clean_lower_none (t : List Char) (h : t.map Char.toLower = ['n', 'o', 'n', 'e']) :
    cleanTrimmed t = Value.null := by
  obtain ⟨c1, t1, rfl, h1, h⟩ := List.map_eq_cons_iff.mp h
  obtain ⟨c2, t2, rfl, h2, h⟩ := List.map_eq_cons_iff.mp h
  obtain ⟨c3, t3, rfl, h3, h⟩ := List.map_eq_cons_iff.mp h
  obtain ⟨c4, t4, rfl, h4, h⟩ := List.map_eq_cons_iff.mp h
  rw [List.map_eq_nil_iff] at h
  subst h
  rcases toLower_eq_n c1 h1 with rfl | rfl <;>
    rcases toLower_eq_o c2 h2 with rfl | rfl <;>
    rcases toLower_eq_n c3 h3 with rfl | rfl <;>
    rcases toLower_eq_e c4 h4 with rfl | rfl <;>
    decide

theorem cleanTrimmed_lower_sentinel (t : List Char)
    (h : t.map Char.toLower ∈ sentinels.map (List.map Char.toLower)) :
    cleanTrimmed t = Value.null := by
  have hsl : sentinels.map (List.map Char.toLower) =
      [[], ['n', '.', 'a', '.'], ['n', '.', 'a'], ['n', 'a'], ['n', '.', 'a', '.'],
        ['-'], ['n', 'o', 'n', 'e']] := by decide
  rw [hsl] at h
  rcases (by simpa using h : t = [] ∨
      t.map Char.toLower = ['n', '.', 'a', '.'] ∨ t.map Char.toLower = ['n', '.', 'a'] ∨
      t.map Char.toLower = ['n', 'a'] ∨ t.map Char.toLower = ['n', '.', 'a', '.'] ∨
      t.map Char.toLower = ['-'] ∨ t.map Char.toLower = ['n', 'o', 'n', 'e'])
    with h0 | h0 | h0 | h0 | h0 | h0 | h0
  · subst h0
    decide
  · exact clean_lower_na4 t h0
  · exact clean_lower_na3 t h0
  · exact clean_lower_na2 t h0
  · exact clean_lower_na4 t h0
  · exact clean_lower_dash t h0
  · exact clean_lower_none t h0

/-!  ### Basic lemmas about column lookup -/

theorem colIdx_lt (hs : List (List Char)) (n : List Char) :
    ∀ i, colIdx hs n = some i → i < hs.length := by
  induction hs with
  | nil => intro i h; exact Option.noConfusion h
  | cons hd tl ih =>
    intro i h
    rw [colIdx] at h
    by_cases he : hd = n
    · rw [if_pos he] at h
      simp only [Option.some_inj] at h
      subst h
      simp
    · rw [if_neg he] at h
      rcases hc : colIdx tl n with _ | j
      · rw [hc] at h; exact Option.noConfusion h
      · rw [hc] at h
        simp only [Option.map_some', Option.some_inj] at h
        subst h
        have := ih j hc
        simp
        omega

theorem colIdx_get (hs : List (List Char)) (n : List Char) :
    ∀ i, colIdx hs n = some i → hs.getD i [] = n := by
  induction hs with
  | nil => intro i h; exact Option.noConfusion h
  | cons hd tl ih =>
    intro i h
    rw [colIdx] at h
    by_cases he : hd = n
    · rw [if_pos he] at h
      simp only [Option.some_inj] at h
      subst h
      simpa using he
    · rw [if_neg he] at h
      rcases hc : colIdx tl n with _ | j
      · rw [hc] at h; exact Option.noConfusion h
      · rw [hc] at h
        simp only [Option.map_some', Option.some_inj] at h
        subst h
        simpa using ih j hc

theorem colIdx_append_some (hs l : List (List Char)) (n : List Char) (i : ℕ)
    (h : colIdx hs n = some i) : colIdx (hs ++ l) n = some i := by
  induction hs generalizing i with
  | nil => exact Option.noConfusion h
  | cons hd tl ih =>
    rw [colIdx] at h
    rw [List.cons_append, colIdx]
    by_cases he : hd = n
    · rw [if_pos he] at h ⊢; exact h
    · rw [if_neg he] at h ⊢
      rcases hc : colIdx tl n with _ | j
      · rw [hc] at h; exact Option.noConfusion h
      · rw [hc] at h
        rw [ih j hc]
        exact h

theorem colIdx_append_self (hs : List (List Char)) (n : List Char)
    (h : colIdx hs n = none) : colIdx (hs ++ [n]) n = some hs.length := by
  induction hs with
  | nil => simp [colIdx]
  | cons hd tl ih =>
    rw [colIdx] at h
    by_cases he : hd = n
    · rw [if_pos he] at h
      exact Option.noConfusion h
    · rw [if_neg he] at h
      rcases hc : colIdx tl n with _ | j
      · rw [List.cons_append, colIdx, if_neg he, ih hc]
        simp
      · rw [hc] at h
        exact Option.noConfusion h

theorem colIdx_append_other (hs : List (List Char)) (n m : List Char)
    (h : colIdx hs m = none) (hmn : m ≠ n) : colIdx (hs ++ [n]) m = none := by
  induction hs with
  | nil =>
    show colIdx [n] m = none
    rw [colIdx, if_neg (fun he => hmn he.symm)]
    rfl
  | cons hd tl ih =>
    rw [colIdx] at h
    by_cases he : hd = m
    · rw [if_pos he] at h
      exact Option.noConfusion h
    · rw [if_neg he] at h
      rcases hc : colIdx tl m with _ | j
      · rw [List.cons_append, colIdx, if_neg he, ih hc]
        rfl
      · rw [hc] at h
        exact Option.noConfusion h

theorem colIdx_isSome_of_mem (hs : List (List Char)) (n : List Char)
    (h : n ∈ hs) : (colIdx hs n).isSome = true := by
  induction hs with
  | nil => exact absurd h (by simp)
  | cons hd tl ih =>
    rw [colIdx]
    by_cases he : hd = n
    · rw [if_pos he]; rfl
    · rw [if_neg he]
      have : n ∈ tl := by
        rcases List.mem_cons.mp h with h0 | h0
        · exact absurd h0.symm he
        · exact h0
      rcases hc : colIdx tl n with _ | j
      · rw [hc] at ih; exact absurd (ih this) (by simp)
      · simp

/-!  ### Positional access helpers -/

theorem getD_map_lt {α β : Type} (g : α → β) (l : List α) (i : ℕ)
    (hi : i < l.length) (d : α) (d2 : β) : (l.map g).getD i d2 = g (l.getD i d) := by
  rw [List.getD_eq_getElem?_getD, List.getElem?_map, List.getD_eq_getElem?_getD,
    List.getElem?_eq_getElem hi]
  rfl

theorem getD_set_self {α : Type} (l : List α) (i : ℕ) (x d : α)
    (hi : i < l.length) : (l.set i x).getD i d = x := by
  rw [List.getD_eq_getElem?_getD, List.getElem?_set_self hi]
  rfl

theorem getD_set_ne {α : Type} (l : List α) (i j : ℕ) (x d : α)
    (hij : i ≠ j) : (l.set i x).getD j d = l.getD j d := by
  rw [List.getD_eq_getElem?_getD, List.getElem?_set_ne hij, ← List.getD_eq_getElem?_getD]

theorem getD_append_lt {α : Type} (l l2 : List α) (i : ℕ) (d : α)
    (hi : i < l.length) : (l ++ l2).getD i d = l.getD i d := by
  rw [List.getD_eq_getElem?_getD, List.getElem?_append, if_pos hi,
    ← List.getD_eq_getElem?_getD]

theorem getD_concat_self {α : Type} (l : List α) (x d : α) :
    (l ++ [x]).getD l.length d = x := by
  rw [List.getD_eq_getElem?_getD, List.getElem?_concat_length]
  rfl

/-!  ### Cell-level behaviour of the frame operations -/

theorem rowGet_nil (hs : List (List Char)) (n : List Char) :
    rowGet hs [] n = Value.null := by
  rw [rowGet]
  rcases colIdx hs n with _ | i
  · rfl
  · rfl

theorem setCol_rows_length (f : Frame) (n : List Char) (g : List Value → Value) :
    (setCol f n g).rows.length = f.rows.length := by
  rw [setCol]
  rcases colIdx f.headers n with _ | i <;> simp

theorem setCol_aligned (f : Frame) (n : List Char) (g : List Value → Value)
    (hA : Aligned f) : Aligned (setCol f n g) := by
  rw [setCol]
  rcases colIdx f.headers n with _ | i
  · intro r hr
    simp only [List.mem_map] at hr
    obtain ⟨r0, hr0, rfl⟩ := hr
    simp [hA r0 hr0]
  · intro r hr
    simp only [List.mem_map] at hr
    obtain ⟨r0, hr0, rfl⟩ := hr
    simp [hA r0 hr0]

theorem setCol_headers_cases (f : Frame) (n : List Char) (g : List Value → Value) :
    (setCol f n g).headers = f.headers ∨ (setCol f n g).headers = f.headers ++ [n] := by
  rw [setCol]
  rcases colIdx f.headers n with _ | i
  · right; rfl
  · left; rfl

theorem getIn_setCol_self (f : Frame) (n : List Char) (g : List Value → Value)
    (hA : Aligned f) (i : ℕ) (hi : i < f.rows.length) :
    getIn (setCol f n g) i n = g (f.rows.getD i []) := by
  have hmem : f.rows.getD i [] ∈ f.rows := by
    rw [List.getD_eq_getElem?_getD, List.getElem?_eq_getElem hi]
    exact List.getElem_mem hi
  have hrl : (f.rows.getD i []).length = f.headers.length := hA _ hmem
  rw [getIn, setCol]
  rcases hc : colIdx f.headers n with _ | j
  · show rowGet (f.headers ++ [n]) ((f.rows.map (fun r => r ++ [g r])).getD i []) n = _
    rw [getD_map_lt _ _ _ hi []]
    rw [rowGet, colIdx_append_self f.headers n hc]
    show (f.rows.getD i [] ++ [g (f.rows.getD i [])]).getD f.headers.length Value.null
      = g (f.rows.getD i [])
    rw [← hrl]
    exact getD_concat_self _ _ _
  · show rowGet f.headers ((f.rows.map (fun r => r.set j (g r))).getD i []) n = _
    rw [getD_map_lt _ _ _ hi []]
    rw [rowGet, hc]
    exact getD_set_self _ _ _ _ (by rw [hrl]; exact colIdx_lt f.headers n j hc)

theorem getIn_setCol_ne (f : Frame) (n m : List Char) (g : List Value → Value)
    (hmn : m ≠ n) (hA : Aligned f) (i : ℕ) (hi : i < f.rows.length) :
    getIn (setCol f n g) i m = getIn f i m := by
  have hmem : f.rows.getD i [] ∈ f.rows := by
    rw [List.getD_eq_getElem?_getD, List.getElem?_eq_getElem hi]
    exact List.getElem_mem hi
  have hrl : (f.rows.getD i []).length = f.headers.length := hA _ hmem
  rw [getIn, setCol, getIn]
  rcases hc : colIdx f.headers n with _ | j
  · show rowGet (f.headers ++ [n]) ((f.rows.map (fun r => r ++ [g r])).getD i []) m = _
    rw [getD_map_lt _ _ _ hi []]
    rw [rowGet, rowGet]
    rcases hm : colIdx f.headers m with _ | k
    · rw [colIdx_append_other f.headers n m hm hmn]
    · rw [colIdx_append_some f.headers [n] m k hm]
      exact getD_append_lt _ _ _ _ (by rw [hrl]; exact colIdx_lt f.headers m k hm)
  · show rowGet f.headers ((f.rows.map (fun r => r.set j (g r))).getD i []) m = _
    rw [getD_map_lt _ _ _ hi []]
    rw [rowGet, rowGet]
    rcases hm : colIdx f.headers m with _ | k
    · rfl
    · refine getD_set_ne _ _ _ _ _ ?_
      intro hjk
      subst hjk
      exact (hmn ((colIdx_get f.headers m j hm).symm.trans
        (colIdx_get f.headers n j hc))).elim

theorem hasCol_setCol_of (f : Frame) (n m : List Char) (g : List Value → Value)
    (h : hasCol f m = true) : hasCol (setCol f n g) m = true := by
  rw [hasCol] at h
  rcases hm : colIdx f.headers m with _ | k
  · rw [hm] at h; exact absurd h (by simp)
  · rw [hasCol, setCol]
    rcases hc : colIdx f.headers n with _ | j
    · show (colIdx (f.headers ++ [n]) m).isSome = true
      rw [colIdx_append_some f.headers [n] m k hm]
      rfl
    · show (colIdx f.headers m).isSome = true
      rw [hm]
      rfl

theorem mapCol_headers (f : Frame) (n : List Char) (g : Value → Value) :
    (mapCol f n g).headers = f.headers := by
  rw [mapCol]
  rcases colIdx f.headers n with _ | i <;> rfl

theorem mapCol_rows_length (f : Frame) (n : List Char) (g : Value → Value) :
    (mapCol f n g).rows.length = f.rows.length := by
  rw [mapCol]
  rcases colIdx f.headers n with _ | i <;> simp

theorem mapCol_aligned (f : Frame) (n : List Char) (g : Value → Value)
    (hA : Aligned f) : Aligned (mapCol f n g) := by
  rw [mapCol]
  rcases colIdx f.headers n with _ | i
  · exact hA
  · intro r hr
    simp only [List.mem_map] at hr
    obtain ⟨r0, hr0, rfl⟩ := hr
    simp [hA r0 hr0]

theorem getIn_mapCol_self (f : Frame) (n : List Char) (g : Value → Value)
    (hA : Aligned f) (hc : hasCol f n = true) (i : ℕ) (hi : i < f.rows.length) :
    getIn (mapCol f n g) i n = g (getIn f i n) := by
  have hmem : f.rows.getD i [] ∈ f.rows := by
    rw [List.getD_eq_getElem?_getD, List.getElem?_eq_getElem hi]
    exact List.getElem_mem hi
  have hrl : (f.rows.getD i []).length = f.headers.length := hA _ hmem
  rcases hj : colIdx f.headers n with _ | j
  · rw [hasCol, hj] at hc; exact absurd hc (by simp)
  · rw [getIn, mapCol, hj]
    show rowGet f.headers
      ((f.rows.map (fun r => r.set j (g (r.getD j Value.null)))).getD i []) n = _
    rw [getD_map_lt _ _ _ hi []]
    rw [rowGet, hj, getIn, rowGet, hj]
    exact getD_set_self _ _ _ _ (by rw [hrl]; exact colIdx_lt f.headers n j hj)

theorem getIn_mapCol_ne (f : Frame) (n m : List Char) (g : Value → Value)
    (hmn : m ≠ n) (i : ℕ) (hi : i < f.rows.length) :
    getIn (mapCol f n g) i m = getIn f i m := by
  rcases hj : colIdx f.headers n with _ | j
  · rw [getIn, mapCol, hj]
    rfl
  · rw [getIn, mapCol, hj]
    show rowGet f.headers
      ((f.rows.map (fun r => r.set j (g (r.getD j Value.null)))).getD i []) m = _
    rw [getD_map_lt _ _ _ hi []]
    rw [rowGet, getIn, rowGet]
    rcases hm : colIdx f.headers m with _ | k
    · rfl
    · refine getD_set_ne _ _ _ _ _ ?_
      intro hjk
      subst hjk
      exact (hmn ((colIdx_get f.headers m j hm).symm.trans
        (colIdx_get f.headers n j hj))).elim

theorem mapCol_absent (f : Frame) (n : List Char) (g : Value → Value)
    (h : colIdx f.headers n = none) : mapCol f n g = f := by
  rw [mapCol, h]

/-!  ### The cleaning fold -/

theorem foldClean_headers (L : List (List Char)) :
    ∀ f : Frame, (L.foldl (fun g c => mapCol g c clean_numeric) f).headers = f.headers := by
  induction L with
  | nil => intro f; rfl
  | cons c L ih =>
    intro f
    rw [List.foldl_cons, ih, mapCol_headers]

theorem foldClean_rows_length (L : List (List Char)) :
    ∀ f : Frame, (L.foldl (fun g c => mapCol g c clean_numeric) f).rows.length
      = f.rows.length := by
  induction L with
  | nil => intro f; rfl
  | cons c L ih =>
    intro f
    rw [List.foldl_cons, ih, mapCol_rows_length]

theorem foldClean_aligned (L : List (List Char)) :
    ∀ f : Frame, Aligned f →
      Aligned (L.foldl (fun g c => mapCol g c clean_numeric) f) := by
  induction L with
  | nil => intro f hA; exact hA
  | cons c L ih =>
    intro f hA
    rw [List.foldl_cons]
    exact ih _ (mapCol_aligned f c clean_numeric hA)

theorem getIn_foldClean_ne (L : List (List Char)) (m : List Char) (hm : m ∉ L) :
    ∀ (f : Frame) (i : ℕ), i < f.rows.length →
      getIn (L.foldl (fun g c => mapCol g c clean_numeric) f) i m = getIn f i m := by
  induction L with
  | nil => intro f i _; rfl
  | cons c L ih =>
    intro f i hi
    rw [List.foldl_cons]
    have hmc : m ≠ c := fun he => hm (he ▸ List.mem_cons_self c L)
    have hmL : m ∉ L := fun he => hm (List.mem_cons_of_mem c he)
    rw [ih hmL _ i (by rw [mapCol_rows_length]; exact hi)]
    exact getIn_mapCol_ne f c m clean_numeric hmc i hi

theorem getIn_foldClean_mem (L : List (List Char)) (m : List Char) (hm : m ∈ L) :
    ∀ (f : Frame) (i : ℕ), Aligned f → hasCol f m = true → i < f.rows.length →
      getIn (L.foldl (fun g c => mapCol g c clean_numeric) f) i m
        = clean_numeric (getIn f i m) := by
  induction L with
  | nil => exact absurd hm (by simp)
  | cons c L ih =>
    intro f i hA hc hi
    rw [List.foldl_cons]
    by_cases hmc : m = c
    · subst hmc
      have hstep : getIn (mapCol f m clean_numeric) i m
          = clean_numeric (getIn f i m) :=
        getIn_mapCol_self f m clean_numeric hA hc i hi
      by_cases hmem : m ∈ L
      · rw [ih hmem _ i (mapCol_aligned f m clean_numeric hA)
          (by rw [hasCol, mapCol_headers]; exact hc)
          (by rw [mapCol_rows_length]; exact hi), hstep, clean_numeric_idem]
      · rw [getIn_foldClean_ne L m hmem _ i (by rw [mapCol_rows_length]; exact hi), hstep]
    · have hmem : m ∈ L := by
        rcases List.mem_cons.mp hm with h0 | h0
        · exact absurd h0 hmc
        · exact h0
      rw [ih hmem _ i (mapCol_aligned f c clean_numeric hA)
        (by rw [hasCol, mapCol_headers]; exact hc)
        (by rw [mapCol_rows_length]; exact hi)]
      rw [getIn_mapCol_ne f c m clean_numeric hmc i hi]

/-!  ### The rename phase -/

theorem colIdx_map_of_iff (ren : List Char → List Char) (n : List Char) :
    ∀ hs : List (List Char), (∀ h, ren h = n ↔ h = n) →
      colIdx (hs.map ren) n = colIdx hs n := by
  intro hs hiff
  induction hs with
  | nil => rfl
  | cons hd tl ih =>
    rw [List.map_cons, colIdx, colIdx, ih]
    by_cases he : hd = n
    · rw [if_pos he, if_pos ((hiff hd).mpr he)]
    · rw [if_neg he, if_neg (fun hh => he ((hiff hd).mp hh))]

theorem renameOne_iff (n : List Char) (h1 : n ≠ nPlayer) (h2 : n ≠ nTeam)
    (h3 : n ≠ "FIFA_Rating".toList) (h4 : n ≠ "Name".toList)
    (h5 : n ≠ "Team Name".toList) (h6 : n ≠ "FIFA rating".toList) :
    ∀ h, renameOne h = n ↔ h = n := by
  intro h
  rw [renameOne]
  by_cases e1 : h = "Name".toList
  · rw [if_pos e1]
    constructor
    · intro hh; exact absurd hh.symm h1
    · intro hh; exact absurd (hh ▸ e1) h4
  · rw [if_neg e1]
    by_cases e2 : h = "Team Name".toList
    · rw [if_pos e2]
      constructor
      · intro hh; exact absurd hh.symm h2
      · intro hh; exact absurd (hh ▸ e2) h5
    · rw [if_neg e2]
      by_cases e3 : h = "FIFA rating".toList
      · rw [if_pos e3]
        constructor
        · intro hh; exact absurd hh.symm h3
        · intro hh; exact absurd (hh ▸ e3) h6
      · rw [if_neg e3]

theorem renameStep_rows (f : Frame) : (renameStep f).rows = f.rows := rfl

theorem renameStep_aligned (f : Frame) (hA : Aligned f) : Aligned (renameStep f) := by
  intro r hr
  rw [renameStep]
  simpa using hA r hr

theorem getIn_renameStep (f : Frame) (n : List Char) (i : ℕ)
    (hiff : ∀ h, renameOne h = n ↔ h = n) :
    getIn (renameStep f) i n = getIn f i n := by
  rw [getIn, getIn, renameStep]
  show rowGet (f.headers.map renameOne) (f.rows.getD i []) n = _
  rw [rowGet, rowGet, colIdx_map_of_iff renameOne n f.headers hiff]

theorem hasCol_renameStep (f : Frame) (n : List Char)
    (hiff : ∀ h, renameOne h = n ↔ h = n) :
    hasCol (renameStep f) n = hasCol f n := by
  rw [hasCol, hasCol, renameStep]
  show (colIdx (f.headers.map renameOne) n).isSome = _
  rw [colIdx_map_of_iff renameOne n f.headers hiff]

/-!  ### The date phase -/

theorem parseDatesStep_headers (f : Frame) :
    (parseDatesStep f).headers = f.headers := by
  rw [parseDatesStep, mapCol_headers, mapCol_headers]

theorem parseDatesStep_rows_length (f : Frame) :
    (parseDatesStep f).rows.length = f.rows.length := by
  rw [parseDatesStep, mapCol_rows_length, mapCol_rows_length]

theorem parseDatesStep_aligned (f : Frame) (hA : Aligned f) :
    Aligned (parseDatesStep f) :=
  mapCol_aligned _ _ _ (mapCol_aligned _ _ _ hA)

theorem getIn_parseDatesStep_ne (f : Frame) (m : List Char)
    (h1 : m ≠ nDateInjury) (h2 : m ≠ nDateReturn) (i : ℕ) (hi : i < f.rows.length) :
    getIn (parseDatesStep f) i m = getIn f i m := by
  rw [parseDatesStep, getIn_mapCol_ne _ _ _ _ h2 i (by rw [mapCol_rows_length]; exact hi),
    getIn_mapCol_ne _ _ _ _ h1 i hi]

theorem getIn_parseDatesStep_injury (f : Frame) (hA : Aligned f)
    (hc : hasCol f nDateInjury = true) (i : ℕ) (hi : i < f.rows.length) :
    getIn (parseDatesStep f) i nDateInjury = dateVal (getIn f i nDateInjury) := by
  rw [parseDatesStep,
    getIn_mapCol_ne _ _ _ _ (by decide) i (by rw [mapCol_rows_length]; exact hi),
    getIn_mapCol_self f nDateInjury dateVal hA hc i hi]

theorem hasCol_parseDatesStep (f : Frame) (m : List Char) :
    hasCol (parseDatesStep f) m = hasCol f m := by
  rw [hasCol, hasCol, parseDatesStep_headers]

/-!  ### The calendar phase -/

theorem rowGet_setCol_headers (f : Frame) (n : List Char) (g : List Value → Value)
    (m : List Char) (hm : (colIdx f.headers m).isSome = true) (r : List Value) :
    rowGet (setCol f n g).headers r m = rowGet f.headers r m := by
  rcases hj : colIdx f.headers m with _ | j
  · rw [hj] at hm; exact absurd hm (by simp)
  · rcases setCol_headers_cases f n g with h | h
    · rw [h]
    · rw [h, rowGet, rowGet, hj, colIdx_append_some f.headers [n] m j hj]

theorem monthYearStep_rows_length (f : Frame) :
    (monthYearStep f).rows.length = f.rows.length := by
  rw [monthYearStep]
  split <;> rw [setCol_rows_length, setCol_rows_length]

theorem monthYearStep_aligned (f : Frame) (hA : Aligned f) :
    Aligned (monthYearStep f) := by
  rw [monthYearStep]
  split <;> exact setCol_aligned _ _ _ (setCol_aligned _ _ _ hA)

theorem hasCol_monthYearStep_of (f : Frame) (m : List Char)
    (h : hasCol f m = true) : hasCol (monthYearStep f) m = true := by
  rw [monthYearStep]
  split <;> exact hasCol_setCol_of _ _ _ _ (hasCol_setCol_of _ _ _ _ h)

theorem monthYearStep_headers_ext (f : Frame) :
    ∃ ex, (monthYearStep f).headers = f.headers ++ ex ∧
      ∀ e ∈ ex, e = nInjuryMonth ∨ e = nInjuryYear := by
  rw [monthYearStep]
  split
  · rcases setCol_headers_cases (setCol f nInjuryMonth
        (fun r => monthCell (rowGet f.headers r nDateInjury))) nInjuryYear
        (fun r => yearCell (rowGet f.headers r nDateInjury)) with h2 | h2 <;>
      rcases setCol_headers_cases f nInjuryMonth
        (fun r => monthCell (rowGet f.headers r nDateInjury)) with h1 | h1
    · exact ⟨[], by rw [h2, h1]; simp, by simp⟩
    · exact ⟨[nInjuryMonth], by rw [h2, h1], by simp⟩
    · exact ⟨[nInjuryYear], by rw [h2, h1], by simp⟩
    · exact ⟨[nInjuryMonth, nInjuryYear], by rw [h2, h1, List.append_assoc]; rfl,
        by intro e he; rcases (by simpa using he : e = nInjuryMonth ∨ e = nInjuryYear)
            with h | h
           · exact Or.inl h
           · exact Or.inr h⟩
  · rcases setCol_headers_cases (setCol f nInjuryMonth (fun _ => Value.null)) nInjuryYear
        (fun _ => Value.null) with h2 | h2 <;>
      rcases setCol_headers_cases f nInjuryMonth (fun _ => Value.null) with h1 | h1
    · exact ⟨[], by rw [h2, h1]; simp, by simp⟩
    · exact ⟨[nInjuryMonth], by rw [h2, h1], by simp⟩
    · exact ⟨[nInjuryYear], by rw [h2, h1], by simp⟩
    · exact ⟨[nInjuryMonth, nInjuryYear], by rw [h2, h1, List.append_assoc]; rfl,
        by intro e he; rcases (by simpa using he : e = nInjuryMonth ∨ e = nInjuryYear)
            with h | h
           · exact Or.inl h
           · exact Or.inr h⟩

theorem getIn_monthYearStep_ne (f : Frame) (m : List Char)
    (h1 : m ≠ nInjuryMonth) (h2 : m ≠ nInjuryYear) (hA : Aligned f)
    (i : ℕ) (hi : i < f.rows.length) :
    getIn (monthYearStep f) i m = getIn f i m := by
  rw [monthYearStep]
  split
  · rw [getIn_setCol_ne _ _ _ _ h2 (setCol_aligned _ _ _ hA) i
      (by rw [setCol_rows_length]; exact hi)]
    exact getIn_setCol_ne _ _ _ _ h1 hA i hi
  · rw [getIn_setCol_ne _ _ _ _ h2 (setCol_aligned _ _ _ hA) i
      (by rw [setCol_rows_length]; exact hi)]
    exact getIn_setCol_ne _ _ _ _ h1 hA i hi

theorem getIn_monthYearStep_month (f : Frame) (hA : Aligned f)
    (hc : hasCol f nDateInjury = true) (i : ℕ) (hi : i < f.rows.length) :
    getIn (monthYearStep f) i nInjuryMonth = monthCell (getIn f i nDateInjury) := by
  rw [monthYearStep, if_pos hc]
  rw [getIn_setCol_ne _ _ _ _ (by decide) (setCol_aligned _ _ _ hA) i
    (by rw [setCol_rows_length]; exact hi)]
  rw [getIn_setCol_self _ _ _ hA i hi]
  rfl

theorem getIn_monthYearStep_year (f : Frame) (hA : Aligned f)
    (hc : hasCol f nDateInjury = true) (i : ℕ) (hi : i < f.rows.length) :
    getIn (monthYearStep f) i nInjuryYear = yearCell (getIn f i nDateInjury) := by
  rw [monthYearStep, if_pos hc]
  rw [getIn_setCol_self _ _ _ (setCol_aligned _ _ _ hA) i
    (by rw [setCol_rows_length]; exact hi)]
  have hrg : rowGet f.headers
      ((setCol f nInjuryMonth (fun r => monthCell (rowGet f.headers r nDateInjury))).rows.getD i [])
      nDateInjury
      = getIn (setCol f nInjuryMonth (fun r => monthCell (rowGet f.headers r nDateInjury))) i
          nDateInjury := by
    rw [getIn, rowGet_setCol_headers f nInjuryMonth _ nDateInjury hc]
  show yearCell (rowGet f.headers _ nDateInjury) = _
  rw [hrg, getIn_setCol_ne _ _ _ _ (by decide) hA i hi]

theorem getIn_monthYearStep_month_absent (f : Frame) (hA : Aligned f)
    (hc : hasCol f nDateInjury = false) (i : ℕ) (hi : i < f.rows.length) :
    getIn (monthYearStep f) i nInjuryMonth = Value.null := by
  rw [monthYearStep, if_neg (by rw [hc]; simp)]
  rw [getIn_setCol_ne _ _ _ _ (by decide) (setCol_aligned _ _ _ hA) i
    (by rw [setCol_rows_length]; exact hi)]
  rw [getIn_setCol_self _ _ _ hA i hi]

theorem getIn_monthYearStep_year_absent (f : Frame) (hA : Aligned f)
    (hc : hasCol f nDateInjury = false) (i : ℕ) (hi : i < f.rows.length) :
    getIn (monthYearStep f) i nInjuryYear = Value.null := by
  rw [monthYearStep, if_neg (by rw [hc]; simp)]
  rw [getIn_setCol_self _ _ _ (setCol_aligned _ _ _ hA) i
    (by rw [setCol_rows_length]; exact hi)]

/-!  ### The derivation phase -/

theorem dStage1_rows_length (f : Frame) : (dStage1 f).rows.length = f.rows.length := by
  rw [dStage1, setCol_rows_length]

theorem dStage2_rows_length (f : Frame) : (dStage2 f).rows.length = f.rows.length := by
  rw [dStage2, setCol_rows_length, dStage1_rows_length]

theorem dStage3_rows_length (f : Frame) : (dStage3 f).rows.length = f.rows.length := by
  rw [dStage3, setCol_rows_length, dStage2_rows_length]

theorem dStage4_rows_length (f : Frame) : (dStage4 f).rows.length = f.rows.length := by
  rw [dStage4, setCol_rows_length, dStage3_rows_length]

theorem dStage5_rows_length (f : Frame) : (dStage5 f).rows.length = f.rows.length := by
  rw [dStage5, setCol_rows_length, dStage4_rows_length]

theorem derivedStep_rows_length (f : Frame) :
    (derivedStep f).rows.length = f.rows.length := by
  rw [derivedStep, setCol_rows_length, dStage5_rows_length]

theorem dStage1_aligned (f : Frame) (hA : Aligned f) : Aligned (dStage1 f) := by
  rw [dStage1]; exact setCol_aligned _ _ _ hA

theorem dStage2_aligned (f : Frame) (hA : Aligned f) : Aligned (dStage2 f) := by
  rw [dStage2]; exact setCol_aligned _ _ _ (dStage1_aligned f hA)

theorem dStage3_aligned (f : Frame) (hA : Aligned f) : Aligned (dStage3 f) := by
  rw [dStage3]; exact setCol_aligned _ _ _ (dStage2_aligned f hA)

theorem dStage4_aligned (f : Frame) (hA : Aligned f) : Aligned (dStage4 f) := by
  rw [dStage4]; exact setCol_aligned _ _ _ (dStage3_aligned f hA)

theorem dStage5_aligned (f : Frame) (hA : Aligned f) : Aligned (dStage5 f) := by
  rw [dStage5]; exact setCol_aligned _ _ _ (dStage4_aligned f hA)

theorem derivedStep_aligned (f : Frame) (hA : Aligned f) : Aligned (derivedStep f) := by
  rw [derivedStep]; exact setCol_aligned _ _ _ (dStage5_aligned f hA)

theorem getIn_dStage1_ne (f : Frame) (m : List Char) (h : m ≠ nAvgBefore)
    (hA : Aligned f) (i : ℕ) (hi : i < f.rows.length) :
    getIn (dStage1 f) i m = getIn f i m := by
  rw [dStage1]; exact getIn_setCol_ne _ _ _ _ h hA i hi

theorem getIn_dStage2_ne1 (f : Frame) (m : List Char) (h : m ≠ nAvgAfter)
    (hA : Aligned f) (i : ℕ) (hi : i < f.rows.length) :
    getIn (dStage2 f) i m = getIn (dStage1 f) i m := by
  rw [dStage2]
  exact getIn_setCol_ne _ _ _ _ h (dStage1_aligned f hA) i
    (by rw [dStage1_rows_length]; exact hi)

theorem getIn_dStage3_ne1 (f : Frame) (m : List Char) (h : m ≠ nRatingChange)
    (hA : Aligned f) (i : ℕ) (hi : i < f.rows.length) :
    getIn (dStage3 f) i m = getIn (dStage2 f) i m := by
  rw [dStage3]
  exact getIn_setCol_ne _ _ _ _ h (dStage2_aligned f hA) i
    (by rw [dStage2_rows_length]; exact hi)

theorem getIn_dStage4_ne1 (f : Frame) (m : List Char) (h : m ≠ nGdBefore)
    (hA : Aligned f) (i : ℕ) (hi : i < f.rows.length) :
    getIn (dStage4 f) i m = getIn (dStage3 f) i m := by
  rw [dStage4]
  exact getIn_setCol_ne _ _ _ _ h (dStage3_aligned f hA) i
    (by rw [dStage3_rows_length]; exact hi)

theorem getIn_dStage5_ne1 (f : Frame) (m : List Char) (h : m ≠ nGdMissed)
    (hA : Aligned f) (i : ℕ) (hi : i < f.rows.length) :
    getIn (dStage5 f) i m = getIn (dStage4 f) i m := by
  rw [dStage5]
  exact getIn_setCol_ne _ _ _ _ h (dStage4_aligned f hA) i
    (by rw [dStage4_rows_length]; exact hi)

theorem getIn_derivedStep_ne1 (f : Frame) (m : List Char) (h : m ≠ nPdi)
    (hA : Aligned f) (i : ℕ) (hi : i < f.rows.length) :
    getIn (derivedStep f) i m = getIn (dStage5 f) i m := by
  rw [derivedStep]
  exact getIn_setCol_ne _ _ _ _ h (dStage5_aligned f hA) i
    (by rw [dStage5_rows_length]; exact hi)

theorem getIn_dStage2_ne (f : Frame) (m : List Char) (h1 : m ≠ nAvgBefore)
    (h2 : m ≠ nAvgAfter) (hA : Aligned f) (i : ℕ) (hi : i < f.rows.length) :
    getIn (dStage2 f) i m = getIn f i m :=
  (getIn_dStage2_ne1 f m h2 hA i hi).trans (getIn_dStage1_ne f m h1 hA i hi)

theorem getIn_dStage3_ne (f : Frame) (m : List Char) (h1 : m ≠ nAvgBefore)
    (h2 : m ≠ nAvgAfter) (h3 : m ≠ nRatingChange)
    (hA : Aligned f) (i : ℕ) (hi : i < f.rows.length) :
    getIn (dStage3 f) i m = getIn f i m :=
  (getIn_dStage3_ne1 f m h3 hA i hi).trans (getIn_dStage2_ne f m h1 h2 hA i hi)

theorem getIn_dStage4_ne (f : Frame) (m : List Char) (h1 : m ≠ nAvgBefore)
    (h2 : m ≠ nAvgAfter) (h3 : m ≠ nRatingChange) (h4 : m ≠ nGdBefore)
    (hA : Aligned f) (i : ℕ) (hi : i < f.rows.length) :
    getIn (dStage4 f) i m = getIn f i m :=
  (getIn_dStage4_ne1 f m h4 hA i hi).trans (getIn_dStage3_ne f m h1 h2 h3 hA i hi)

theorem getIn_dStage5_ne (f : Frame) (m : List Char) (h1 : m ≠ nAvgBefore)
    (h2 : m ≠ nAvgAfter) (h3 : m ≠ nRatingChange) (h4 : m ≠ nGdBefore)
    (h5 : m ≠ nGdMissed) (hA : Aligned f) (i : ℕ) (hi : i < f.rows.length) :
    getIn (dStage5 f) i m = getIn f i m :=
  (getIn_dStage5_ne1 f m h5 hA i hi).trans (getIn_dStage4_ne f m h1 h2 h3 h4 hA i hi)

theorem getIn_derivedStep_ne (f : Frame) (m : List Char) (h1 : m ≠ nAvgBefore)
    (h2 : m ≠ nAvgAfter) (h3 : m ≠ nRatingChange) (h4 : m ≠ nGdBefore)
    (h5 : m ≠ nGdMissed) (h6 : m ≠ nPdi)
    (hA : Aligned f) (i : ℕ) (hi : i < f.rows.length) :
    getIn (derivedStep f) i m = getIn f i m :=
  (getIn_derivedStep_ne1 f m h6 hA i hi).trans
    (getIn_dStage5_ne f m h1 h2 h3 h4 h5 hA i hi)

theorem mem_ratingCols_marker (hs : List (List Char)) (m : List Char)
    (h : m ∈ ratingCols hs) : isInfixB "Player_rating".toList m = true := by
  rw [ratingCols] at h
  exact (List.mem_filter.mp h).2

theorem mem_gdCols_suffix (hs : List (List Char)) (m : List Char)
    (h : m ∈ gdCols hs) : "_GD".toList.isSuffixOf m = true := by
  rw [gdCols] at h
  exact (List.mem_filter.mp h).2

theorem cleaned_col_ne (m : List Char)
    (h : isInfixB "Player_rating".toList m = true ∨ "_GD".toList.isSuffixOf m = true) :
    m ≠ nAvgBefore ∧ m ≠ nAvgAfter ∧ m ≠ nRatingChange ∧ m ≠ nGdBefore ∧
      m ≠ nGdMissed ∧ m ≠ nPdi := by
  rcases h with h | h <;>
    exact ⟨fun he => absurd (he ▸ h) (by decide), fun he => absurd (he ▸ h) (by decide),
      fun he => absurd (he ▸ h) (by decide), fun he => absurd (he ▸ h) (by decide),
      fun he => absurd (he ▸ h) (by decide), fun he => absurd (he ▸ h) (by decide)⟩

theorem getIn_dStage1_self (f : Frame) (hA : Aligned f) (i : ℕ)
    (hi : i < f.rows.length) :
    getIn (dStage1 f) i nAvgBefore =
      (if (beforeCols f.headers).isEmpty then Value.null
       else meanV ((beforeCols f.headers).map (fun c => getIn f i c))) := by
  rw [dStage1, getIn_setCol_self f _ _ hA i hi]
  rfl

theorem getIn_dStage2_self (f : Frame) (hA : Aligned f) (i : ℕ)
    (hi : i < f.rows.length) :
    getIn (dStage2 f) i nAvgAfter =
      (if (afterCols f.headers).isEmpty then Value.null
       else meanV ((afterCols f.headers).map (fun c => getIn f i c))) := by
  rw [dStage2, getIn_setCol_self (dStage1 f) _ _ (dStage1_aligned f hA) i
    (by rw [dStage1_rows_length]; exact hi)]
  by_cases he : (afterCols f.headers).isEmpty
  · rw [if_pos he, if_pos he]
  · rw [if_neg he, if_neg he]
    refine congrArg meanV (List.map_congr_left ?_)
    intro c hc
    rw [afterCols] at hc
    have hrc : isInfixB "Player_rating".toList c = true :=
      mem_ratingCols_marker f.headers c (List.mem_filter.mp hc).1
    show getIn (dStage1 f) i c = getIn f i c
    exact getIn_dStage1_ne f c (fun he2 => absurd (he2 ▸ hrc) (by decide)) hA i hi

theorem getIn_dStage3_self (f : Frame) (hA : Aligned f) (i : ℕ)
    (hi : i < f.rows.length) :
    getIn (dStage3 f) i nRatingChange =
      vSub (getIn (dStage2 f) i nAvgAfter) (getIn (dStage2 f) i nAvgBefore) := by
  rw [dStage3, getIn_setCol_self (dStage2 f) _ _ (dStage2_aligned f hA) i
    (by rw [dStage2_rows_length]; exact hi)]
  rfl

theorem getIn_dStage4_self (f : Frame) (hA : Aligned f) (i : ℕ)
    (hi : i < f.rows.length) :
    getIn (dStage4 f) i nGdBefore =
      (if (gdBeforeCols f.headers).isEmpty then Value.null
       else meanV ((gdBeforeCols f.headers).map (fun c => getIn f i c))) := by
  rw [dStage4, getIn_setCol_self (dStage3 f) _ _ (dStage3_aligned f hA) i
    (by rw [dStage3_rows_length]; exact hi)]
  by_cases he : (gdBeforeCols f.headers).isEmpty
  · rw [if_pos he, if_pos he]
  · rw [if_neg he, if_neg he]
    refine congrArg meanV (List.map_congr_left ?_)
    intro c hc
    rw [gdBeforeCols] at hc
    have hrc : "_GD".toList.isSuffixOf c = true :=
      mem_gdCols_suffix f.headers c (List.mem_filter.mp hc).1
    show getIn (dStage3 f) i c = getIn f i c
    exact getIn_dStage3_ne f c (fun he2 => absurd (he2 ▸ hrc) (by decide))
      (fun he2 => absurd (he2 ▸ hrc) (by decide))
      (fun he2 => absurd (he2 ▸ hrc) (by decide)) hA i hi

theorem getIn_dStage5_self (f : Frame) (hA : Aligned f) (i : ℕ)
    (hi : i < f.rows.length) :
    getIn (dStage5 f) i nGdMissed =
      (if (gdMissedCols f.headers).isEmpty then Value.null
       else meanV ((gdMissedCols f.headers).map (fun c => getIn f i c))) := by
  rw [dStage5, getIn_setCol_self (dStage4 f) _ _ (dStage4_aligned f hA) i
    (by rw [dStage4_rows_length]; exact hi)]
  by_cases he : (gdMissedCols f.headers).isEmpty
  · rw [if_pos he, if_pos he]
  · rw [if_neg he, if_neg he]
    refine congrArg meanV (List.map_congr_left ?_)
    intro c hc
    rw [gdMissedCols] at hc
    have hrc : "_GD".toList.isSuffixOf c = true :=
      mem_gdCols_suffix f.headers c (List.mem_filter.mp hc).1
    show getIn (dStage4 f) i c = getIn f i c
    exact getIn_dStage4_ne f c (fun he2 => absurd (he2 ▸ hrc) (by decide))
      (fun he2 => absurd (he2 ▸ hrc) (by decide))
      (fun he2 => absurd (he2 ▸ hrc) (by decide))
      (fun he2 => absurd (he2 ▸ hrc) (by decide)) hA i hi

theorem getIn_derivedStep_avgBefore (f : Frame) (hA : Aligned f) (i : ℕ)
    (hi : i < f.rows.length) :
    getIn (derivedStep f) i nAvgBefore =
      (if (beforeCols f.headers).isEmpty then Value.null
       else meanV ((beforeCols f.headers).map (fun c => getIn f i c))) := by
  rw [getIn_derivedStep_ne1 f nAvgBefore (by decide) hA i hi,
    getIn_dStage5_ne1 f nAvgBefore (by decide) hA i hi,
    getIn_dStage4_ne1 f nAvgBefore (by decide) hA i hi,
    getIn_dStage3_ne1 f nAvgBefore (by decide) hA i hi,
    getIn_dStage2_ne1 f nAvgBefore (by decide) hA i hi,
    getIn_dStage1_self f hA i hi]

theorem getIn_derivedStep_avgAfter (f : Frame) (hA : Aligned f) (i : ℕ)
    (hi : i < f.rows.length) :
    getIn (derivedStep f) i nAvgAfter =
      (if (afterCols f.headers).isEmpty then Value.null
       else meanV ((afterCols f.headers).map (fun c => getIn f i c))) := by
  rw [getIn_derivedStep_ne1 f nAvgAfter (by decide) hA i hi,
    getIn_dStage5_ne1 f nAvgAfter (by decide) hA i hi,
    getIn_dStage4_ne1 f nAvgAfter (by decide) hA i hi,
    getIn_dStage3_ne1 f nAvgAfter (by decide) hA i hi,
    getIn_dStage2_self f hA i hi]

theorem getIn_derivedStep_ratingChange (f : Frame) (hA : Aligned f) (i : ℕ)
    (hi : i < f.rows.length) :
    getIn (derivedStep f) i nRatingChange =
      vSub (getIn (derivedStep f) i nAvgAfter) (getIn (derivedStep f) i nAvgBefore) := by
  rw [getIn_derivedStep_ne1 f nRatingChange (by decide) hA i hi,
    getIn_dStage5_ne1 f nRatingChange (by decide) hA i hi,
    getIn_dStage4_ne1 f nRatingChange (by decide) hA i hi,
    getIn_dStage3_self f hA i hi,
    getIn_derivedStep_ne1 f nAvgAfter (by decide) hA i hi,
    getIn_dStage5_ne1 f nAvgAfter (by decide) hA i hi,
    getIn_dStage4_ne1 f nAvgAfter (by decide) hA i hi,
    getIn_dStage3_ne1 f nAvgAfter (by decide) hA i hi,
    getIn_derivedStep_ne1 f nAvgBefore (by decide) hA i hi,
    getIn_dStage5_ne1 f nAvgBefore (by decide) hA i hi,
    getIn_dStage4_ne1 f nAvgBefore (by decide) hA i hi,
    getIn_dStage3_ne1 f nAvgBefore (by decide) hA i hi]

theorem getIn_derivedStep_gdBefore (f : Frame) (hA : Aligned f) (i : ℕ)
    (hi : i < f.rows.length) :
    getIn (derivedStep f) i nGdBefore =
      (if (gdBeforeCols f.headers).isEmpty then Value.null
       else meanV ((gdBeforeCols f.headers).map (fun c => getIn f i c))) := by
  rw [getIn_derivedStep_ne1 f nGdBefore (by decide) hA i hi,
    getIn_dStage5_ne1 f nGdBefore (by decide) hA i hi,
    getIn_dStage4_self f hA i hi]

theorem getIn_derivedStep_gdMissed (f : Frame) (hA : Aligned f) (i : ℕ)
    (hi : i < f.rows.length) :
    getIn (derivedStep f) i nGdMissed =
      (if (gdMissedCols f.headers).isEmpty then Value.null
       else meanV ((gdMissedCols f.headers).map (fun c => getIn f i c))) := by
  rw [getIn_derivedStep_ne1 f nGdMissed (by decide) hA i hi,
    getIn_dStage5_self f hA i hi]

theorem getIn_derivedStep_pdi (f : Frame) (hA : Aligned f) (i : ℕ)
    (hi : i < f.rows.length) :
    getIn (derivedStep f) i nPdi =
      vSub (getIn (derivedStep f) i nGdBefore) (getIn (derivedStep f) i nGdMissed) := by
  rw [derivedStep, getIn_setCol_self (dStage5 f) _ _ (dStage5_aligned f hA) i
    (by rw [dStage5_rows_length]; exact hi)]
  show vSub (getIn (dStage5 f) i nGdBefore) (getIn (dStage5 f) i nGdMissed) = _
  rw [← derivedStep, getIn_derivedStep_ne1 f nGdBefore (by decide) hA i hi,
    getIn_derivedStep_ne1 f nGdMissed (by decide) hA i hi]

/-!  ### Bookkeeping for the composed pipeline -/

theorem getIn_parseDatesStep_return (f : Frame) (hA : Aligned f)
    (hc : hasCol f nDateReturn = true) (i : ℕ) (hi : i < f.rows.length) :
    getIn (parseDatesStep f) i nDateReturn = dateVal (getIn f i nDateReturn) := by
  rw [parseDatesStep,
    getIn_mapCol_self (mapCol f nDateInjury dateVal) nDateReturn dateVal
      (mapCol_aligned _ _ _ hA) (by rw [hasCol, mapCol_headers]; exact hc) i
      (by rw [mapCol_rows_length]; exact hi),
    getIn_mapCol_ne _ _ _ _ (by decide) i hi]

theorem preFrame_rows_length (f : Frame) : (preFrame f).rows.length = f.rows.length := by
  rw [preFrame, cleanStep, foldClean_rows_length, monthYearStep_rows_length]
  show (renameStep _).rows.length = _
  rw [renameStep_rows, parseDatesStep_rows_length]

theorem preFrame_aligned (f : Frame) (hA : Aligned f) : Aligned (preFrame f) := by
  rw [preFrame, cleanStep]
  exact foldClean_aligned _ _ (monthYearStep_aligned _ (renameStep_aligned _
    (parseDatesStep_aligned _ hA)))

theorem load_data_rows_length (f : Frame) : (load_data f).rows.length = f.rows.length := by
  rw [load_data, derivedStep_rows_length, preFrame_rows_length]

theorem load_data_aligned (f : Frame) (hA : Aligned f) : Aligned (load_data f) := by
  rw [load_data]
  exact derivedStep_aligned _ (preFrame_aligned f hA)

/-!  ### The sidebar filters -/

theorem frame_ext (a b : Frame) (h1 : a.headers = b.headers) (h2 : a.rows = b.rows) :
    a = b := by
  cases a
  cases b
  simp only [Frame.mk.injEq]
  exact ⟨h1, h2⟩

theorem applyFilters_rows (f : Frame) (ss ts ps : List Value) :
    (applyFilters f ss ts ps).rows = f.rows.filter (fun r =>
      (if hasCol f nSeason = true ∧ ss ≠ [] then decide (rowGet f.headers r nSeason ∈ ss)
       else true) &&
      ((if ts ≠ [] then decide (rowGet f.headers r nTeam ∈ ts) else true) &&
       (if ps ≠ [] then decide (rowGet f.headers r nPlayer ∈ ps) else true))) := by
  by_cases h1 : hasCol f nSeason = true ∧ ss ≠ []
  · by_cases h2 : ts ≠ []
    · by_cases h3 : ps ≠ []
      · simp only [applyFilters, if_pos h1, if_pos h2, if_pos h3, filterRows,
          List.filter_filter]
        exact List.filter_congr (fun a _ => by
          cases hq : decide (rowGet f.headers a nSeason ∈ ss) <;>
            cases hw : decide (rowGet f.headers a nTeam ∈ ts) <;>
            cases he : decide (rowGet f.headers a nPlayer ∈ ps) <;> rfl)
      · simp only [applyFilters, if_pos h1, if_pos h2, if_neg h3, filterRows,
          List.filter_filter]
        exact List.filter_congr (fun a _ => by
          cases hq : decide (rowGet f.headers a nSeason ∈ ss) <;>
            cases hw : decide (rowGet f.headers a nTeam ∈ ts) <;> rfl)
    · by_cases h3 : ps ≠ []
      · simp only [applyFilters, if_pos h1, if_neg h2, if_pos h3, filterRows,
          List.filter_filter]
        exact List.filter_congr (fun a _ => by
          cases hq : decide (rowGet f.headers a nSeason ∈ ss) <;>
            cases he : decide (rowGet f.headers a nPlayer ∈ ps) <;> rfl)
      · simp only [applyFilters, if_pos h1, if_neg h2, if_neg h3, filterRows,
          List.filter_filter]
        exact List.filter_congr (fun a _ => by
          cases hq : decide (rowGet f.headers a nSeason ∈ ss) <;> rfl)
  · by_cases h2 : ts ≠ []
    · by_cases h3 : ps ≠ []
      · simp only [applyFilters, if_neg h1, if_pos h2, if_pos h3, filterRows,
          List.filter_filter]
        exact List.filter_congr (fun a _ => by
          cases hw : decide (rowGet f.headers a nTeam ∈ ts) <;>
            cases he : decide (rowGet f.headers a nPlayer ∈ ps) <;> rfl)
      · simp only [applyFilters, if_neg h1, if_pos h2, if_neg h3, filterRows,
          List.filter_filter]
        exact List.filter_congr (fun a _ => by
          cases hw : decide (rowGet f.headers a nTeam ∈ ts) <;> rfl)
    · by_cases h3 : ps ≠ []
      · simp only [applyFilters, if_neg h1, if_neg h2, if_pos h3, filterRows,
          List.filter_filter]
        exact List.filter_congr (fun a _ => by
          cases he : decide (rowGet f.headers a nPlayer ∈ ps) <;> rfl)
      · simp only [applyFilters, if_neg h1, if_neg h2, if_neg h3, filterRows]
        simp

theorem applyFilters_headers (f : Frame) (ss ts ps : List Value) :
    (applyFilters f ss ts ps).headers = f.headers := by
  by_cases h1 : hasCol f nSeason = true ∧ ss ≠ [] <;> by_cases h2 : ts ≠ [] <;>
    by_cases h3 : ps ≠ []
  · simp only [applyFilters, if_pos h1, if_pos h2, if_pos h3, filterRows]
  · simp only [applyFilters, if_pos h1, if_pos h2, if_neg h3, filterRows]
  · simp only [applyFilters, if_pos h1, if_neg h2, if_pos h3, filterRows]
  · simp only [applyFilters, if_pos h1, if_neg h2, if_neg h3, filterRows]
  · simp only [applyFilters, if_neg h1, if_pos h2, if_pos h3, filterRows]
  · simp only [applyFilters, if_neg h1, if_pos h2, if_neg h3, filterRows]
  · simp only [applyFilters, if_neg h1, if_neg h2, if_pos h3, filterRows]
  · simp only [applyFilters, if_neg h1, if_neg h2, if_neg h3, filterRows]

/-!  ### Ranking, grid and leaderboard kit -/

theorem sortedNonNullPdi_sorted (f : Frame) :
    List.Sorted (fun r1 r2 => ((pdiKey f.headers r1).getD 0) ≥ ((pdiKey f.headers r2).getD 0))
      (sortedNonNullPdi f) := by
  haveI : IsTotal (List Value)
      (fun r1 r2 => ((pdiKey f.headers r1).getD 0) ≥ ((pdiKey f.headers r2).getD 0)) :=
    ⟨fun a b => le_total ((pdiKey f.headers b).getD 0) ((pdiKey f.headers a).getD 0)⟩
  haveI : IsTrans (List Value)
      (fun r1 r2 => ((pdiKey f.headers r1).getD 0) ≥ ((pdiKey f.headers r2).getD 0)) :=
    ⟨fun _ _ _ h1 h2 => le_trans h2 h1⟩
  exact List.sorted_insertionSort _ _

theorem sortedNonNullPdi_perm (f : Frame) :
    List.Perm (sortedNonNullPdi f)
      (f.rows.filter (fun r => (pdiKey f.headers r).isSome)) :=
  List.perm_insertionSort _ _

theorem mem_sortedNonNullPdi (f : Frame) (r : List Value) (h : r ∈ sortedNonNullPdi f) :
    r ∈ f.rows ∧ (pdiKey f.headers r).isSome = true := by
  have h2 := (sortedNonNullPdi_perm f).mem_iff.mp h
  have h3 := List.mem_filter.mp h2
  exact ⟨h3.1, h3.2⟩

theorem mem_teamMonthPairs (f : Frame) (p : Value × Value) (h : p ∈ teamMonthPairs f) :
    p.1 ≠ Value.null ∧ p.2 ≠ Value.null := by
  rw [teamMonthPairs] at h
  obtain ⟨r, _, he⟩ := List.mem_filterMap.mp h
  by_cases hc : rowGet f.headers r nTeam ≠ Value.null ∧
      rowGet f.headers r nInjuryMonth ≠ Value.null
  · rw [if_pos hc] at he
    obtain rfl : (rowGet f.headers r nTeam, rowGet f.headers r nInjuryMonth) = p :=
      Option.some.inj he
    exact hc
  · rw [if_neg hc] at he
    exact Option.noConfusion he

theorem mem_heatTeams (f : Frame) (t : Value) (h : t ∈ heatTeams f) :
    t ≠ Value.null := by
  rw [heatTeams] at h
  have h2 := (List.perm_insertionSort _ _).mem_iff.mp h
  have h3 := List.mem_dedup.mp h2
  obtain ⟨p, hp, rfl⟩ := List.mem_map.mp h3
  exact (mem_teamMonthPairs f p hp).1

theorem countP_teamMonthPairs (f : Frame) (t : Value) (ht : t ≠ Value.null)
    (m : List Char) :
    (teamMonthPairs f).countP (fun p => decide (p = (t, Value.str m))) =
      f.rows.countP (fun r => decide (rowGet f.headers r nTeam = t ∧
        rowGet f.headers r nInjuryMonth = Value.str m)) := by
  rw [teamMonthPairs, List.countP_filterMap]
  refine List.countP_congr ?_
  intro r _
  by_cases hc : rowGet f.headers r nTeam ≠ Value.null ∧
      rowGet f.headers r nInjuryMonth ≠ Value.null
  · rw [if_pos hc]
    show decide ((rowGet f.headers r nTeam, rowGet f.headers r nInjuryMonth)
      = (t, Value.str m)) = true ↔ _
    rw [decide_eq_true_eq, decide_eq_true_eq]
    exact iff_of_eq (Prod.mk.injEq _ _ _ _)
  · rw [if_neg hc]
    show false = true ↔ _
    rw [decide_eq_true_eq]
    constructor
    · intro hx
      exact Bool.noConfusion hx
    · intro hx
      rcases not_and_or.mp hc with h0 | h0
      · have hnull : rowGet f.headers r nTeam = Value.null := not_not.mp h0
        rw [hnull] at hx
        exact absurd hx.1.symm ht
      · have hnull : rowGet f.headers r nInjuryMonth = Value.null := not_not.mp h0
        rw [hnull] at hx
        exact Value.noConfusion hx.2

theorem teamMonthPairs_length (f : Frame) :
    (teamMonthPairs f).length =
      f.rows.countP (fun r => decide (rowGet f.headers r nTeam ≠ Value.null ∧
        rowGet f.headers r nInjuryMonth ≠ Value.null)) := by
  rw [teamMonthPairs, List.length_filterMap_eq_countP]
  refine List.countP_congr ?_
  intro r _
  by_cases hc : rowGet f.headers r nTeam ≠ Value.null ∧
      rowGet f.headers r nInjuryMonth ≠ Value.null
  · rw [if_pos hc]
    simp [hc]
  · rw [if_neg hc]
    simp [hc]

theorem keyOf_some (hs : List (List Char)) (r : List Value) (k : Value × Value)
    (h : keyOf hs r = some k) :
    k.1 ≠ Value.null ∧ k.2 ≠ Value.null ∧ rowGet hs r nPlayer = k.1 ∧
      rowGet hs r nTeam = k.2 := by
  rw [keyOf] at h
  by_cases hc : rowGet hs r nPlayer ≠ Value.null ∧ rowGet hs r nTeam ≠ Value.null
  · rw [if_pos hc] at h
    obtain rfl : (rowGet hs r nPlayer, rowGet hs r nTeam) = k := Option.some.inj h
    exact ⟨hc.1, hc.2, rfl, rfl⟩
  · rw [if_neg hc] at h
    exact Option.noConfusion h

theorem keyOf_none (hs : List (List Char)) (r : List Value)
    (h : rowGet hs r nPlayer = Value.null ∨ rowGet hs r nTeam = Value.null) :
    keyOf hs r = none := by
  rw [keyOf, if_neg]
  intro hc
  rcases h with h | h
  · exact hc.1 h
  · exact hc.2 h

theorem lbKeys_perm (f : Frame) : List.Perm (lbKeys f) (lbPairs f).dedup :=
  List.perm_insertionSort _ _

theorem lbKeys_nodup (f : Frame) : (lbKeys f).Nodup :=
  ((lbKeys_perm f).nodup_iff).mpr (List.nodup_dedup _)

theorem mem_lbKeys_nonnull (f : Frame) (k : Value × Value) (h : k ∈ lbKeys f) :
    k.1 ≠ Value.null ∧ k.2 ≠ Value.null := by
  have h2 := List.mem_dedup.mp ((lbKeys_perm f).mem_iff.mp h)
  rw [lbPairs] at h2
  obtain ⟨r, _, he⟩ := List.mem_filterMap.mp h2
  have h3 := keyOf_some f.headers r k he
  exact ⟨h3.1, h3.2.1⟩

theorem mem_keyedRows (f : Frame) (k : Value × Value) (r : List Value)
    (h : r ∈ keyedRows f k) : r ∈ f.rows ∧ keyOf f.headers r = some k := by
  rw [keyedRows] at h
  have h2 := List.mem_filter.mp h
  exact ⟨h2.1, of_decide_eq_true h2.2⟩

theorem keyedRows_length_countP (f : Frame) (k : Value × Value) :
    (keyedRows f k).length = f.rows.countP (fun r => decide (keyOf f.headers r = some k)) :=
  (List.countP_eq_length_filter _ _).symm

theorem mkLbRow_injCount_absent (f : Frame) (k : Value × Value)
    (hk : k.1 ≠ Value.null) (hinj : hasCol f nInjury = false) :
    (mkLbRow f k).injCount = (keyedRows f k).length := by
  rw [mkLbRow]
  simp only [hinj, Bool.false_eq_true, if_false]
  refine List.countP_eq_length.mpr ?_
  intro r hr
  have h2 := mem_keyedRows f k r hr
  have h3 := keyOf_some f.headers r k h2.2
  rw [decide_eq_true_eq, h3.2.2.1]
  exact hk

theorem lbLeB_total (a b : LbRow) : lbLeB a b = true ∨ lbLeB b a = true := by
  rcases hx : numOf a.avgC with _ | x <;> rcases hy : numOf b.avgC with _ | y <;>
    simp [lbLeB, hx, hy]
  exact le_total y x

theorem lbLeB_trans (a b c : LbRow) (h1 : lbLeB a b = true) (h2 : lbLeB b c = true) :
    lbLeB a c = true := by
  rcases hx : numOf a.avgC with _ | x <;> rcases hy : numOf b.avgC with _ | y <;>
    rcases hz : numOf c.avgC with _ | z <;> simp_all [lbLeB]
  exact le_trans h2 h1

theorem leaderboard_sorted (f : Frame) :
    List.Sorted (fun a b => lbLeB a b = true)
      (List.insertionSort (fun a b => lbLeB a b = true) (lbTable f)) := by
  haveI : IsTotal LbRow (fun a b => lbLeB a b = true) := ⟨lbLeB_total⟩
  haveI : IsTrans LbRow (fun a b => lbLeB a b = true) := ⟨lbLeB_trans⟩
  exact List.sorted_insertionSort _ _

theorem leaderboard_perm (f : Frame) :
    List.Perm (List.insertionSort (fun a b => lbLeB a b = true) (lbTable f)) (lbTable f) :=
  List.perm_insertionSort _ _

/-!  ### Mean and subtraction facts -/

theorem meanV_if_empty (cols : List (List Char)) (g : List Char → Value) :
    (if cols.isEmpty then Value.null else meanV (cols.map g)) = meanV (cols.map g) := by
  by_cases h : cols.isEmpty
  · rw [if_pos h, List.isEmpty_iff.mp h]
    rfl
  · rw [if_neg h]

theorem meanV_filterMap (cells : List Value) :
    meanV cells =
      (if cells.filterMap numOf = [] then Value.null
       else Value.num ((cells.filterMap numOf).sum /
         ((cells.filterMap numOf).length : ℚ))) := by
  rw [meanV]
  by_cases h : cells.filterMap numOf = []
  · rw [if_pos (by rw [h]; rfl), if_pos h]
  · rw [if_neg (by rw [List.isEmpty_iff]; exact h), if_neg h, qDiv_eq, qSum_eq,
      Rat.mkRat_one]
    norm_cast

theorem vSub_some (a b : Value) (x y : ℚ) (hx : numOf a = some x) (hy : numOf b = some y) :
    vSub a b = Value.num (x - y) := by
  rw [vSub, hx, hy]
  show Value.num (qSub x y) = _
  rw [qSub_eq]

theorem vSub_none (a b : Value) (h : numOf a = none ∨ numOf b = none) :
    vSub a b = Value.null := by
  rcases h with h | h
  · rcases hb : numOf b with _ | y <;> rw [vSub, h, hb]
  · rcases ha : numOf a with _ | x <;> rw [vSub, h, ha]

/-- C3: sentinel strings null out after trimming, case-insensitively, and
annotated or comma-grouped numbers parse to their numeric value; a
sentinel occurring as a proper substring of a parseable number does not
null the cell. -/
theorem clean_numeric_sentinel_cases :
    (∀ s : List Char, (stripChars s).map Char.toLower ∈
        sentinels.map (List.map Char.toLower) →
      clean_numeric (Value.str s) = Value.null) ∧
    clean_numeric (S "1,234") = Value.num 1234 ∧
    clean_numeric (S "85 (S)") = Value.num 85 ∧
    clean_numeric (S "-12") = Value.num (-12) ∧
    clean_numeric (S " NA ") = Value.null ∧
    clean_numeric (S "n.a.") = Value.null ∧
    clean_numeric (S "NONE") = Value.null ∧
    clean_numeric (S "None") = Value.null ∧
    clean_numeric (S "-") = Value.null ∧
    clean_numeric (S "") = Value.null := by
  refine ⟨?_, by decide, by decide, by decide, by decide, by decide, by decide,
    by decide, by decide, by decide⟩
  intro s h
  exact cleanTrimmed_lower_sentinel (stripChars s) h

/-- C4: the numeric cleaner is idempotent on every cell value. -/
theorem clean_numeric_idempotent (v : Value) :
    clean_numeric (clean_numeric v) = clean_numeric v :=
  clean_numeric_idem v

/-!  ### Claim C1: totality of the enrichment pipeline -/

theorem not_mem_cleanCols (hs : List (List Char)) (m : List Char)
    (h1 : isInfixB "Player_rating".toList m = false)
    (h2 : "_GD".toList.isSuffixOf m = false) :
    m ∉ ratingCols hs ++ gdCols hs := by
  intro hm
  rcases List.mem_append.mp hm with h | h
  · rw [mem_ratingCols_marker hs m h] at h1
    exact Bool.noConfusion h1
  · rw [mem_gdCols_suffix hs m h] at h2
    exact Bool.noConfusion h2

/-- C1: the pipeline is total on malformed values: it always returns an
aligned table of the same size, an unparseable injury or return date
becomes null, every cleaned numeric cell is exactly the cleaner's output
on the incoming cell and is null or numeric, and a cell whose cleaned
string fails the float parse becomes null. -/
theorem load_data_total_on_malformed (f : Frame) (hA : Aligned f) :
    (load_data f).rows.length = f.rows.length ∧
    Aligned (load_data f) ∧
    (∀ i, i < f.rows.length → hasCol f nDateInjury = true →
      ∀ s, getIn f i nDateInjury = Value.str s → parseDate s = none →
        getIn (load_data f) i nDateInjury = Value.null) ∧
    (∀ i, i < f.rows.length → hasCol f nDateReturn = true →
      ∀ s, getIn f i nDateReturn = Value.str s → parseDate s = none →
        getIn (load_data f) i nDateReturn = Value.null) ∧
    (∀ m, m ∈ ratingCols (preFrame f).headers ++ gdCols (preFrame f).headers →
      ∀ i, i < f.rows.length →
        getIn (load_data f) i m
            = clean_numeric (getIn (monthYearStep (renameStep (parseDatesStep f))) i m) ∧
          (getIn (load_data f) i m = Value.null ∨
            ∃ q, getIn (load_data f) i m = Value.num q)) ∧
    (∀ s : List Char,
      parsePyFloat (stripChars ((dropParen (stripChars s)).filter (fun c => c ≠ ','))) = none →
      clean_numeric (Value.str s) = Value.null) := by
  have hlen2 : (renameStep (parseDatesStep f)).rows.length = f.rows.length := by
    rw [renameStep_rows, parseDatesStep_rows_length]
  have hal2 : Aligned (renameStep (parseDatesStep f)) :=
    renameStep_aligned _ (parseDatesStep_aligned _ hA)
  have hlen3 : (monthYearStep (renameStep (parseDatesStep f))).rows.length
      = f.rows.length := by
    rw [monthYearStep_rows_length, hlen2]
  refine ⟨load_data_rows_length f, load_data_aligned f hA, ?_, ?_, ?_, ?_⟩
  · intro i hi hcol s hs hp
    have h1 : getIn (parseDatesStep f) i nDateInjury = Value.null := by
      rw [getIn_parseDatesStep_injury f hA hcol i hi, hs]
      show (match parseDate s with
        | some (y, m, d) => Value.date y m d
        | none => Value.null) = Value.null
      rw [hp]
    have h2 : getIn (renameStep (parseDatesStep f)) i nDateInjury = Value.null := by
      rw [getIn_renameStep _ _ _ (renameOne_iff nDateInjury (by decide) (by decide)
        (by decide) (by decide) (by decide) (by decide)), h1]
    have h3 : getIn (monthYearStep (renameStep (parseDatesStep f))) i nDateInjury
        = Value.null := by
      rw [getIn_monthYearStep_ne _ _ (by decide) (by decide) hal2 i
        (by rw [hlen2]; exact hi), h2]
    have h4 : getIn (preFrame f) i nDateInjury = Value.null := by
      rw [preFrame, cleanStep]
      rw [getIn_foldClean_ne _ nDateInjury
        (not_mem_cleanCols _ nDateInjury (by decide) (by decide)) _ i
        (by rw [hlen3]; exact hi), h3]
    rw [load_data, getIn_derivedStep_ne (preFrame f) nDateInjury (by decide) (by decide)
      (by decide) (by decide) (by decide) (by decide) (preFrame_aligned f hA) i
      (by rw [preFrame_rows_length]; exact hi), h4]
  · intro i hi hcol s hs hp
    have h1 : getIn (parseDatesStep f) i nDateReturn = Value.null := by
      rw [getIn_parseDatesStep_return f hA hcol i hi, hs]
      show (match parseDate s with
        | some (y, m, d) => Value.date y m d
        | none => Value.null) = Value.null
      rw [hp]
    have h2 : getIn (renameStep (parseDatesStep f)) i nDateReturn = Value.null := by
      rw [getIn_renameStep _ _ _ (renameOne_iff nDateReturn (by decide) (by decide)
        (by decide) (by decide) (by decide) (by decide)), h1]
    have h3 : getIn (monthYearStep (renameStep (parseDatesStep f))) i nDateReturn
        = Value.null := by
      rw [getIn_monthYearStep_ne _ _ (by decide) (by decide) hal2 i
        (by rw [hlen2]; exact hi), h2]
    have h4 : getIn (preFrame f) i nDateReturn = Value.null := by
      rw [preFrame, cleanStep]
      rw [getIn_foldClean_ne _ nDateReturn
        (not_mem_cleanCols _ nDateReturn (by decide) (by decide)) _ i
        (by rw [hlen3]; exact hi), h3]
    rw [load_data, getIn_derivedStep_ne (preFrame f) nDateReturn (by decide) (by decide)
      (by decide) (by decide) (by decide) (by decide) (preFrame_aligned f hA) i
      (by rw [preFrame_rows_length]; exact hi), h4]
  · intro m hm i hi
    have hh : (preFrame f).headers
        = (monthYearStep (renameStep (parseDatesStep f))).headers := by
      rw [preFrame, cleanStep]
      exact foldClean_headers _ _
    rw [hh] at hm
    have hor : isInfixB "Player_rating".toList m = true ∨
        "_GD".toList.isSuffixOf m = true := by
      rcases List.mem_append.mp hm with h | h
      · exact Or.inl (mem_ratingCols_marker _ m h)
      · exact Or.inr (mem_gdCols_suffix _ m h)
    obtain ⟨n1, n2, n3, n4, n5, n6⟩ := cleaned_col_ne m hor
    have hmem : m ∈ (monthYearStep (renameStep (parseDatesStep f))).headers := by
      rcases List.mem_append.mp hm with h | h
      · exact List.mem_of_mem_filter h
      · exact List.mem_of_mem_filter h
    have heq : getIn (load_data f) i m
        = clean_numeric (getIn (monthYearStep (renameStep (parseDatesStep f))) i m) := by
      rw [load_data, getIn_derivedStep_ne (preFrame f) m n1 n2 n3 n4 n5 n6
        (preFrame_aligned f hA) i (by rw [preFrame_rows_length]; exact hi)]
      rw [preFrame, cleanStep]
      rw [getIn_foldClean_mem _ m hm _ i
        (monthYearStep_aligned _ (renameStep_aligned _ (parseDatesStep_aligned _ hA)))
        (colIdx_isSome_of_mem _ m hmem) (by rw [hlen3]; exact hi)]
    refine ⟨heq, ?_⟩
    rw [heq]
    rcases clean_numeric_shape (getIn (monthYearStep (renameStep (parseDatesStep f))) i m)
      with h | ⟨q, hq, _⟩
    · exact Or.inl h
    · exact Or.inr ⟨q, hq⟩
  · intro s hfail
    show cleanTrimmed (stripChars s) = Value.null
    rw [cleanTrimmed]
    by_cases hs : stripChars s ∈ sentinels
    · rw [if_pos hs]
    · rw [if_neg hs, hfail]

/-- C1 at a concrete malformed table: both unparseable dates and the
unparseable rating cell come out null. -/
theorem load_data_total_on_malformed_witness :
    Aligned c1Frame ∧
    ((load_data c1Frame).rows.length = c1Frame.rows.length ∧
     Aligned (load_data c1Frame) ∧
     (∀ i, i < c1Frame.rows.length → hasCol c1Frame nDateInjury = true →
       ∀ s, getIn c1Frame i nDateInjury = Value.str s → parseDate s = none →
         getIn (load_data c1Frame) i nDateInjury = Value.null) ∧
     (∀ i, i < c1Frame.rows.length → hasCol c1Frame nDateReturn = true →
       ∀ s, getIn c1Frame i nDateReturn = Value.str s → parseDate s = none →
         getIn (load_data c1Frame) i nDateReturn = Value.null) ∧
     (∀ m, m ∈ ratingCols (preFrame c1Frame).headers ++ gdCols (preFrame c1Frame).headers →
       ∀ i, i < c1Frame.rows.length →
         getIn (load_data c1Frame) i m
             = clean_numeric (getIn (monthYearStep (renameStep (parseDatesStep c1Frame))) i m) ∧
           (getIn (load_data c1Frame) i m = Value.null ∨
             ∃ q, getIn (load_data c1Frame) i m = Value.num q)) ∧
     (∀ s : List Char,
       parsePyFloat (stripChars ((dropParen (stripChars s)).filter (fun c => c ≠ ','))) = none →
       clean_numeric (Value.str s) = Value.null)) ∧
    getIn (load_data c1Frame) 0 nDateInjury = Value.null ∧
    getIn (load_data c1Frame) 0 nDateReturn = Value.null ∧
    getIn (load_data c1Frame) 0 ("Player_rating_x".toList) = Value.null :=
  ⟨by decide, load_data_total_on_malformed c1Frame (by decide),
    by decide, by decide, by decide⟩

/-!  ### Claims C5 and C6: the derived metrics -/

/-- C5: the two average-rating columns are the unweighted means of the
cleaned `before` / `after` rating cells of the row, ignoring nulls, and
degrade to null when the column group is empty or all cells are null. -/
theorem avg_rating_mean_of_present (f : Frame) (hA : Aligned f) (i : ℕ)
    (hi : i < f.rows.length) :
    getIn (load_data f) i nAvgBefore =
      meanV ((beforeCols (preFrame f).headers).map (fun c => getIn (preFrame f) i c)) ∧
    getIn (load_data f) i nAvgAfter =
      meanV ((afterCols (preFrame f).headers).map (fun c => getIn (preFrame f) i c)) ∧
    (∀ cells : List Value, meanV cells =
      (if cells.filterMap numOf = [] then Value.null
       else Value.num ((cells.filterMap numOf).sum /
         ((cells.filterMap numOf).length : ℚ)))) ∧
    (beforeCols (preFrame f).headers = [] →
      getIn (load_data f) i nAvgBefore = Value.null) := by
  have hb : i < (preFrame f).rows.length := by
    rw [preFrame_rows_length]
    exact hi
  have h1 : getIn (load_data f) i nAvgBefore =
      meanV ((beforeCols (preFrame f).headers).map (fun c => getIn (preFrame f) i c)) := by
    rw [load_data, getIn_derivedStep_avgBefore (preFrame f) (preFrame_aligned f hA) i hb,
      meanV_if_empty]
  refine ⟨h1, ?_, meanV_filterMap, ?_⟩
  · rw [load_data, getIn_derivedStep_avgAfter (preFrame f) (preFrame_aligned f hA) i hb,
      meanV_if_empty]
  · intro hcols
    rw [h1, hcols]
    rfl

/-- C5 at a concrete table: one sentinel `before` cell is ignored. -/
theorem avg_rating_mean_witness :
    Aligned c5Frame ∧
    (getIn (load_data c5Frame) 0 nAvgBefore =
      meanV ((beforeCols (preFrame c5Frame).headers).map
        (fun c => getIn (preFrame c5Frame) 0 c)) ∧
     getIn (load_data c5Frame) 0 nAvgAfter =
      meanV ((afterCols (preFrame c5Frame).headers).map
        (fun c => getIn (preFrame c5Frame) 0 c)) ∧
     (∀ cells : List Value, meanV cells =
       (if cells.filterMap numOf = [] then Value.null
        else Value.num ((cells.filterMap numOf).sum /
          ((cells.filterMap numOf).length : ℚ)))) ∧
     (beforeCols (preFrame c5Frame).headers = [] →
       getIn (load_data c5Frame) 0 nAvgBefore = Value.null)) ∧
    getIn (load_data c5Frame) 0 nAvgBefore = Value.num 5 ∧
    getIn (load_data c5Frame) 0 nAvgAfter = Value.num 7 :=
  ⟨by decide, avg_rating_mean_of_present c5Frame (by decide) 0 (by decide),
    by decide, by decide⟩

/-- C6: `rating_change` and `performance_drop_index` are the
null-propagating differences of their operand columns, and the
2.0 / -1.0 example yields 3.0. -/
theorem rating_change_and_pdi_subtraction (f : Frame) (hA : Aligned f) (i : ℕ)
    (hi : i < f.rows.length) :
    getIn (load_data f) i nRatingChange =
      vSub (getIn (load_data f) i nAvgAfter) (getIn (load_data f) i nAvgBefore) ∧
    getIn (load_data f) i nPdi =
      vSub (getIn (load_data f) i nGdBefore) (getIn (load_data f) i nGdMissed) ∧
    (∀ a b : Value, ∀ x y : ℚ, numOf a = some x → numOf b = some y →
      vSub a b = Value.num (x - y)) ∧
    (∀ a b : Value, numOf a = none ∨ numOf b = none → vSub a b = Value.null) ∧
    (getIn (load_data f) i nGdBefore = Value.num 2 →
      getIn (load_data f) i nGdMissed = Value.num (-1) →
      getIn (load_data f) i nPdi = Value.num 3) := by
  have hb : i < (preFrame f).rows.length := by
    rw [preFrame_rows_length]
    exact hi
  have hpdi : getIn (load_data f) i nPdi =
      vSub (getIn (load_data f) i nGdBefore) (getIn (load_data f) i nGdMissed) := by
    rw [load_data]
    exact getIn_derivedStep_pdi (preFrame f) (preFrame_aligned f hA) i hb
  refine ⟨?_, hpdi, fun a b x y hx hy => vSub_some a b x y hx hy,
    fun a b h => vSub_none a b h, ?_⟩
  · rw [load_data]
    exact getIn_derivedStep_ratingChange (preFrame f) (preFrame_aligned f hA) i hb
  · intro h1 h2
    rw [hpdi, h1, h2]
    decide

/-- C6 at a concrete table with goal differences 2 and -1. -/
theorem rating_change_and_pdi_witness :
    Aligned c6Frame ∧
    (getIn (load_data c6Frame) 0 nRatingChange =
      vSub (getIn (load_data c6Frame) 0 nAvgAfter) (getIn (load_data c6Frame) 0 nAvgBefore) ∧
     getIn (load_data c6Frame) 0 nPdi =
      vSub (getIn (load_data c6Frame) 0 nGdBefore) (getIn (load_data c6Frame) 0 nGdMissed) ∧
     (∀ a b : Value, ∀ x y : ℚ, numOf a = some x → numOf b = some y →
       vSub a b = Value.num (x - y)) ∧
     (∀ a b : Value, numOf a = none ∨ numOf b = none → vSub a b = Value.null) ∧
     (getIn (load_data c6Frame) 0 nGdBefore = Value.num 2 →
       getIn (load_data c6Frame) 0 nGdMissed = Value.num (-1) →
       getIn (load_data c6Frame) 0 nPdi = Value.num 3)) ∧
    getIn (load_data c6Frame) 0 nGdBefore = Value.num 2 ∧
    getIn (load_data c6Frame) 0 nGdMissed = Value.num (-1) ∧
    getIn (load_data c6Frame) 0 nPdi = Value.num 3 :=
  ⟨by decide, rating_change_and_pdi_subtraction c6Frame (by decide) 0 (by decide),
    by decide, by decide, by decide⟩

/-!  ### Claim C7: the filtered subset -/

/-- C7: the filtered subset keeps exactly the rows passing every active
dimension, an empty selection restricts nothing, an absent column (whose
selection `main` then leaves empty) restricts nothing, the all-empty
selection returns the table unchanged, and a team-only selection keeps
exactly the rows whose team is selected. -/
theorem filters_conjunction (f : Frame) (ss ts ps : List Value)
    (hss : ss ≠ [] → hasCol f nSeason = true)
    (hts : ts ≠ [] → hasCol f nTeam = true)
    (hps : ps ≠ [] → hasCol f nPlayer = true) :
    (applyFilters f ss ts ps).rows = f.rows.filter (fun r =>
      (decide (ss = []) || decide (rowGet f.headers r nSeason ∈ ss)) &&
      ((decide (ts = []) || decide (rowGet f.headers r nTeam ∈ ts)) &&
       (decide (ps = []) || decide (rowGet f.headers r nPlayer ∈ ps)))) ∧
    applyFilters f [] [] [] = f ∧
    (ts ≠ [] → (applyFilters f [] ts []).rows =
      f.rows.filter (fun r => decide (rowGet f.headers r nTeam ∈ ts))) ∧
    (hasCol f nSeason = false → applyFilters f ss ts ps = applyFilters f [] ts ps) ∧
    (hasCol f nTeam = false → applyFilters f ss ts ps = applyFilters f ss [] ps) ∧
    (hasCol f nPlayer = false → applyFilters f ss ts ps = applyFilters f ss ts []) := by
  refine ⟨?_, ?_, ?_, ?_, ?_, ?_⟩
  · rw [applyFilters_rows]
    refine List.filter_congr ?_
    intro r _
    have e1 : (if hasCol f nSeason = true ∧ ss ≠ []
        then decide (rowGet f.headers r nSeason ∈ ss) else true)
        = (decide (ss = []) || decide (rowGet f.headers r nSeason ∈ ss)) := by
      by_cases hse : ss = []
      · rw [if_neg (fun hx => hx.2 hse), decide_eq_true hse, Bool.true_or]
      · rw [if_pos ⟨hss hse, hse⟩, decide_eq_false hse, Bool.false_or]
    have e2 : (if ts ≠ [] then decide (rowGet f.headers r nTeam ∈ ts) else true)
        = (decide (ts = []) || decide (rowGet f.headers r nTeam ∈ ts)) := by
      by_cases hte : ts = []
      · rw [if_neg (fun hx => hx hte), decide_eq_true hte, Bool.true_or]
      · rw [if_pos hte, decide_eq_false hte, Bool.false_or]
    have e3 : (if ps ≠ [] then decide (rowGet f.headers r nPlayer ∈ ps) else true)
        = (decide (ps = []) || decide (rowGet f.headers r nPlayer ∈ ps)) := by
      by_cases hpe : ps = []
      · rw [if_neg (fun hx => hx hpe), decide_eq_true hpe, Bool.true_or]
      · rw [if_pos hpe, decide_eq_false hpe, Bool.false_or]
    rw [e1, e2, e3]
  · refine frame_ext _ _ (applyFilters_headers f [] [] []) ?_
    rw [applyFilters_rows]
    simp
  · intro hte
    rw [applyFilters_rows]
    refine List.filter_congr ?_
    intro r _
    rw [if_neg (fun hx => hx.2 rfl), if_pos hte, if_neg (fun hx => hx rfl)]
    cases hw : decide (rowGet f.headers r nTeam ∈ ts) <;> rfl
  · intro hc
    have hx : ¬(hasCol f nSeason = true ∧ ss ≠ []) := fun hx => by
      rw [hc] at hx
      exact Bool.noConfusion hx.1
    have hy : ¬(hasCol f nSeason = true ∧ ([] : List Value) ≠ []) := fun hy => hy.2 rfl
    simp only [applyFilters, if_neg hx, if_neg hy]
  · intro hc
    cases hte : ts with
    | nil => rfl
    | cons a l =>
      have h2 := hts (by rw [hte]; simp)
      rw [hc] at h2
      exact Bool.noConfusion h2
  · intro hc
    cases hpe : ps with
    | nil => rfl
    | cons a l =>
      have h2 := hps (by rw [hpe]; simp)
      rw [hc] at h2
      exact Bool.noConfusion h2

/-- C7 at a concrete table and selections. -/
theorem filters_conjunction_witness :
    ((applyFilters c7Frame [S "2020"] [S "A"] []).rows =
      c7Frame.rows.filter (fun r =>
       (decide (([S "2020"] : List Value) = []) ||
          decide (rowGet c7Frame.headers r nSeason ∈ ([S "2020"] : List Value))) &&
       ((decide (([S "A"] : List Value) = []) ||
           decide (rowGet c7Frame.headers r nTeam ∈ ([S "A"] : List Value))) &&
        (decide (([] : List Value) = []) ||
           decide (rowGet c7Frame.headers r nPlayer ∈ ([] : List Value))))) ∧
     applyFilters c7Frame [] [] [] = c7Frame ∧
     (([S "A"] : List Value) ≠ [] → (applyFilters c7Frame [] [S "A"] []).rows =
       c7Frame.rows.filter (fun r =>
         decide (rowGet c7Frame.headers r nTeam ∈ ([S "A"] : List Value)))) ∧
     (hasCol c7Frame nSeason = false →
       applyFilters c7Frame [S "2020"] [S "A"] [] = applyFilters c7Frame [] [S "A"] []) ∧
     (hasCol c7Frame nTeam = false →
       applyFilters c7Frame [S "2020"] [S "A"] [] = applyFilters c7Frame [S "2020"] [] []) ∧
     (hasCol c7Frame nPlayer = false →
       applyFilters c7Frame [S "2020"] [S "A"] [] =
         applyFilters c7Frame [S "2020"] [S "A"] [])) ∧
    (applyFilters c7Frame [] [S "A"] []).rows = [[S "2020", S "A", S "p"]] :=
  ⟨filters_conjunction c7Frame [S "2020"] [S "A"] [] (fun _ => by decide)
     (fun _ => by decide) (fun _ => by decide), by decide⟩

/-!  ### Claim C2: the ranking projection -/

/-- C2 (amended): the ranking output is the non-null records sorted by
performance drop index descending, followed by the null-index records,
truncated to ten rows; null-index records therefore appear exactly when
fewer than ten non-null records exist, and the first rows always agree
with the nulls-excluded ranking. -/
theorem top_drops_ranking_amended (f : Frame)
    (h : 0 < f.rows.countP (fun r => (pdiKey f.headers r).isSome)) :
    top_drops f = some (rankingProjSpec f ++
      (nullPdiRows f).take (10 - (sortedNonNullPdi f).length)) ∧
    (10 ≤ (sortedNonNullPdi f).length → top_drops f = some (rankingProjSpec f)) ∧
    List.Perm (sortedNonNullPdi f)
      (f.rows.filter (fun r => (pdiKey f.headers r).isSome)) ∧
    List.Sorted (fun r1 r2 => ((pdiKey f.headers r1).getD 0) ≥
      ((pdiKey f.headers r2).getD 0)) (sortedNonNullPdi f) ∧
    (∀ r ∈ rankingProjSpec f, (pdiKey f.headers r).isSome = true) := by
  have h1 : top_drops f = some (rankingProjSpec f ++
      (nullPdiRows f).take (10 - (sortedNonNullPdi f).length)) := by
    rw [top_drops, if_pos h, List.take_append_eq_append_take]
    rfl
  refine ⟨h1, ?_, sortedNonNullPdi_perm f, sortedNonNullPdi_sorted f, ?_⟩
  · intro h10
    rw [h1, Nat.sub_eq_zero_of_le h10, List.take_zero, List.append_nil]
  · intro r hr
    exact (mem_sortedNonNullPdi f r (List.mem_of_mem_take hr)).2

/-- C2 (amended) at a concrete enriched table with one null index. -/
theorem top_drops_ranking_witness :
    (0 < (load_data c2Frame).rows.countP
      (fun r => (pdiKey (load_data c2Frame).headers r).isSome)) ∧
    (top_drops (load_data c2Frame) = some (rankingProjSpec (load_data c2Frame) ++
      (nullPdiRows (load_data c2Frame)).take
        (10 - (sortedNonNullPdi (load_data c2Frame)).length)) ∧
     (10 ≤ (sortedNonNullPdi (load_data c2Frame)).length →
       top_drops (load_data c2Frame) = some (rankingProjSpec (load_data c2Frame))) ∧
     List.Perm (sortedNonNullPdi (load_data c2Frame))
       ((load_data c2Frame).rows.filter
         (fun r => (pdiKey (load_data c2Frame).headers r).isSome)) ∧
     List.Sorted (fun r1 r2 => ((pdiKey (load_data c2Frame).headers r1).getD 0) ≥
       ((pdiKey (load_data c2Frame).headers r2).getD 0))
       (sortedNonNullPdi (load_data c2Frame)) ∧
     (∀ r ∈ rankingProjSpec (load_data c2Frame),
       (pdiKey (load_data c2Frame).headers r).isSome = true)) :=
  ⟨by decide, top_drops_ranking_amended (load_data c2Frame) (by decide)⟩

/-- C2 counterexample: with one cleanable and one uncleanable index the
emitted ten-row budget contains a null-index record, so the output is
not the nulls-excluded ranking. -/
theorem top_drops_null_rows_cex :
    top_drops (load_data c2Frame) ≠ some (rankingProjSpec (load_data c2Frame)) ∧
    ((top_drops (load_data c2Frame)).getD []).any
      (fun r => !(pdiKey (load_data c2Frame).headers r).isSome) = true ∧
    (rankingProjSpec (load_data c2Frame)).length = 1 ∧
    ((top_drops (load_data c2Frame)).getD []).length = 2 := by decide

/-!  ### Claim C8: the frequency grid -/

/-- C8 (amended): the heatmap grid counts records per (team, month) with
missing combinations zero-filled, but its columns are only the months
that occur among the grouped records, in calendar order — not all twelve
months; records with a null team or month are counted in no bucket while
staying in the table. -/
theorem heat_pivot_calendar_amended (f : Frame) (h1 : hasCol f nTeam = true)
    (h2 : hasCol f nInjuryMonth = true) (h3 : teamMonthPairs f ≠ []) :
    heat_pivot f = some
      { gTeams := heatTeams f
        gMonths := heatMonths f
        gCounts := (heatTeams f).map (fun t => (heatMonths f).map (fun m =>
          (teamMonthPairs f).countP (fun p => decide (p = (t, Value.str m))))) } ∧
    (heatMonths f).Sublist monthOrder ∧
    (∀ m, m ∈ heatMonths f ↔ m ∈ monthOrder ∧
      (teamMonthPairs f).any (fun p => decide (p.2 = Value.str m)) = true) ∧
    (∀ t ∈ heatTeams f, t ≠ Value.null) ∧
    (∀ t, t ≠ Value.null → ∀ m,
      (teamMonthPairs f).countP (fun p => decide (p = (t, Value.str m))) =
        f.rows.countP (fun r => decide (rowGet f.headers r nTeam = t ∧
          rowGet f.headers r nInjuryMonth = Value.str m))) ∧
    (teamMonthPairs f).length = f.rows.countP (fun r =>
      decide (rowGet f.headers r nTeam ≠ Value.null ∧
        rowGet f.headers r nInjuryMonth ≠ Value.null)) := by
  refine ⟨?_, ?_, ?_, mem_heatTeams f, countP_teamMonthPairs f, teamMonthPairs_length f⟩
  · rw [heat_pivot, if_pos ⟨h1, h2⟩, if_neg h3]
  · rw [heatMonths]
    exact List.filter_sublist _
  · intro m
    rw [heatMonths]
    exact List.mem_filter

/-- C8 (amended) at the three-record example table. -/
theorem heat_pivot_calendar_witness :
    hasCol (load_data c8Frame) nTeam = true ∧
    hasCol (load_data c8Frame) nInjuryMonth = true ∧
    teamMonthPairs (load_data c8Frame) ≠ [] ∧
    (heat_pivot (load_data c8Frame) = some
      { gTeams := heatTeams (load_data c8Frame)
        gMonths := heatMonths (load_data c8Frame)
        gCounts := (heatTeams (load_data c8Frame)).map
          (fun t => (heatMonths (load_data c8Frame)).map (fun m =>
            (teamMonthPairs (load_data c8Frame)).countP
              (fun p => decide (p = (t, Value.str m))))) } ∧
     (heatMonths (load_data c8Frame)).Sublist monthOrder ∧
     (∀ m, m ∈ heatMonths (load_data c8Frame) ↔ m ∈ monthOrder ∧
       (teamMonthPairs (load_data c8Frame)).any
         (fun p => decide (p.2 = Value.str m)) = true) ∧
     (∀ t ∈ heatTeams (load_data c8Frame), t ≠ Value.null) ∧
     (∀ t, t ≠ Value.null → ∀ m,
       (teamMonthPairs (load_data c8Frame)).countP
           (fun p => decide (p = (t, Value.str m))) =
         (load_data c8Frame).rows.countP
           (fun r => decide (rowGet (load_data c8Frame).headers r nTeam = t ∧
             rowGet (load_data c8Frame).headers r nInjuryMonth = Value.str m))) ∧
     (teamMonthPairs (load_data c8Frame)).length = (load_data c8Frame).rows.countP
       (fun r => decide (rowGet (load_data c8Frame).headers r nTeam ≠ Value.null ∧
         rowGet (load_data c8Frame).headers r nInjuryMonth ≠ Value.null))) :=
  ⟨by decide, by decide, by decide,
    heat_pivot_calendar_amended (load_data c8Frame) (by decide) (by decide) (by decide)⟩

/-- C8 counterexample: the example grid has exactly the two present
months as columns, so it differs from a twelve-column calendar grid. -/
theorem heat_pivot_columns_cex :
    heat_pivot (load_data c8Frame) = some
      { gTeams := [S "TeamA", S "TeamB"]
        gMonths := ["January".toList, "March".toList]
        gCounts := [[0, 2], [1, 0]] } ∧
    heat_pivot (load_data c8Frame) ≠ some (specFreqGrid (load_data c8Frame)) ∧
    (specFreqGrid (load_data c8Frame)).gMonths = monthOrder := by decide

/-!  ### Claims C9 and C10: the leaderboard -/

/-- C9 (amended): the leaderboard has one row per distinct non-null
(player, team) key, sorted by mean rating change descending (null means
last) and truncated to fifteen; per group the three means ignore nulls,
and `Injuries_Count` is the number of records with a NON-NULL `Injury`
cell (the whole group size only when the `Injury` column is absent, via
the `Player_Name` fallback). -/
theorem leaderboard_grouping_amended (f : Frame) (hp : hasCol f nPlayer = true)
    (hrc : hasCol f nRatingChange = true) (ht : hasCol f nTeam = true) :
    leaderboard f =
      some ((List.insertionSort (fun a b => lbLeB a b = true) (lbTable f)).take 15) ∧
    lbTable f = (lbKeys f).map (mkLbRow f) ∧
    List.Perm (lbKeys f) (lbPairs f).dedup ∧
    (lbKeys f).Nodup ∧
    (∀ k ∈ lbKeys f,
      (hasCol f nInjury = true → (mkLbRow f k).injCount =
        (keyedRows f k).countP
          (fun r => decide (rowGet f.headers r nInjury ≠ Value.null))) ∧
      (hasCol f nInjury = false → (mkLbRow f k).injCount = (keyedRows f k).length) ∧
      (mkLbRow f k).avgB =
        meanV ((keyedRows f k).map (fun r => rowGet f.headers r nAvgBefore)) ∧
      (mkLbRow f k).avgA =
        meanV ((keyedRows f k).map (fun r => rowGet f.headers r nAvgAfter)) ∧
      (mkLbRow f k).avgC =
        meanV ((keyedRows f k).map (fun r => rowGet f.headers r nRatingChange))) ∧
    List.Sorted (fun a b => lbLeB a b = true)
      (List.insertionSort (fun a b => lbLeB a b = true) (lbTable f)) ∧
    List.Perm (List.insertionSort (fun a b => lbLeB a b = true) (lbTable f))
      (lbTable f) := by
  refine ⟨?_, rfl, lbKeys_perm f, lbKeys_nodup f, ?_, leaderboard_sorted f,
    leaderboard_perm f⟩
  · rw [leaderboard, if_pos ⟨hp, hrc⟩, if_pos ht]
  · intro k hk
    refine ⟨?_, ?_, rfl, rfl, rfl⟩
    · intro hinj
      show (if hasCol f nInjury = true then
          (keyedRows f k).countP
            (fun r => decide (rowGet f.headers r nInjury ≠ Value.null))
        else (keyedRows f k).countP
            (fun r => decide (rowGet f.headers r nPlayer ≠ Value.null))) = _
      rw [if_pos hinj]
    · intro hinj
      exact mkLbRow_injCount_absent f k (mem_lbKeys_nonnull f k hk).1 hinj

/-- C9 (amended) at a two-record group with rating changes 1 and 3. -/
theorem leaderboard_grouping_witness :
    hasCol (load_data c9Frame2) nPlayer = true ∧
    hasCol (load_data c9Frame2) nRatingChange = true ∧
    hasCol (load_data c9Frame2) nTeam = true ∧
    (leaderboard (load_data c9Frame2) =
      some ((List.insertionSort (fun a b => lbLeB a b = true)
        (lbTable (load_data c9Frame2))).take 15) ∧
     lbTable (load_data c9Frame2) =
       (lbKeys (load_data c9Frame2)).map (mkLbRow (load_data c9Frame2)) ∧
     List.Perm (lbKeys (load_data c9Frame2)) (lbPairs (load_data c9Frame2)).dedup ∧
     (lbKeys (load_data c9Frame2)).Nodup ∧
     (∀ k ∈ lbKeys (load_data c9Frame2),
       (hasCol (load_data c9Frame2) nInjury = true →
         (mkLbRow (load_data c9Frame2) k).injCount =
         (keyedRows (load_data c9Frame2) k).countP
           (fun r => decide (rowGet (load_data c9Frame2).headers r nInjury
             ≠ Value.null))) ∧
       (hasCol (load_data c9Frame2) nInjury = false →
         (mkLbRow (load_data c9Frame2) k).injCount =
           (keyedRows (load_data c9Frame2) k).length) ∧
       (mkLbRow (load_data c9Frame2) k).avgB =
         meanV ((keyedRows (load_data c9Frame2) k).map
           (fun r => rowGet (load_data c9Frame2).headers r nAvgBefore)) ∧
       (mkLbRow (load_data c9Frame2) k).avgA =
         meanV ((keyedRows (load_data c9Frame2) k).map
           (fun r => rowGet (load_data c9Frame2).headers r nAvgAfter)) ∧
       (mkLbRow (load_data c9Frame2) k).avgC =
         meanV ((keyedRows (load_data c9Frame2) k).map
           (fun r => rowGet (load_data c9Frame2).headers r nRatingChange))) ∧
     List.Sorted (fun a b => lbLeB a b = true)
       (List.insertionSort (fun a b => lbLeB a b = true)
         (lbTable (load_data c9Frame2))) ∧
     List.Perm (List.insertionSort (fun a b => lbLeB a b = true)
       (lbTable (load_data c9Frame2))) (lbTable (load_data c9Frame2))) ∧
    ((leaderboard (load_data c9Frame2)).getD []).map (fun row => row.injCount) = [2] ∧
    ((leaderboard (load_data c9Frame2)).getD []).map (fun row => row.avgC)
      = [Value.num 2] :=
  ⟨by decide, by decide, by decide,
    leaderboard_grouping_amended (load_data c9Frame2) (by decide) (by decide) (by decide),
    by decide, by decide⟩

/-- C9 counterexample: with a null `Injury` cell in a group of two, the
emitted count is 1, not the group size 2, while the mean rating change
is still 2. -/
theorem leaderboard_injury_count_cex :
    ((leaderboard (load_data c9Frame)).getD []).map (fun row => row.injCount) = [1] ∧
    (keyedRows (load_data c9Frame) (S "X", S "Y")).length = 2 ∧
    ((leaderboard (load_data c9Frame)).getD []).map (fun row => row.avgC)
      = [Value.num 2] := by decide

/-- C10: a record with a null player or team cell gets no grouping key,
belongs to no leaderboard group, and no group carries a null key — while
the record still counts toward the record-count scalar. -/
theorem leaderboard_null_keys_dropped (f : Frame) :
    (∀ r ∈ f.rows, (rowGet f.headers r nPlayer = Value.null ∨
        rowGet f.headers r nTeam = Value.null) →
      keyOf f.headers r = none ∧ (∀ k : Value × Value, r ∉ keyedRows f k)) ∧
    (∀ k ∈ lbKeys f, k.1 ≠ Value.null ∧ k.2 ≠ Value.null) ∧
    total_injuries f = f.rows.length := by
  refine ⟨?_, mem_lbKeys_nonnull f, rfl⟩
  intro r _ h
  have h0 := keyOf_none f.headers r h
  refine ⟨h0, ?_⟩
  intro k hk
  have h2 := (mem_keyedRows f k r hk).2
  rw [h0] at h2
  exact Option.noConfusion h2

/-- C10 at a concrete table: the null-team record is dropped from the
leaderboard but still counted in the total. -/
theorem leaderboard_null_keys_witness :
    ((leaderboard (load_data c10Frame)).getD []).map (fun row => row.player) = [S "X"] ∧
    keyOf (load_data c10Frame).headers ((load_data c10Frame).rows.getD 1 []) = none ∧
    total_injuries (load_data c10Frame) = 2 := by decide
